import Mathlib

/-!
# Verification of the FirstWatch 911 dispatch ingester

Shallow embedding of `src/dispatch_ingester.py` (class `DispatchIngester`)
and of the copy `src/deploy/dispatch_ingester.py`.

Modelling conventions:
* Python values occurring in feed rows are modelled by `PyVal`
  (`None`, `str`, `int`, `bool`); JSON feed rows are association lists.
* The standard-library conversions that the code calls are abstracted as
  parameters: `fromisoformat : String → Option D` models
  `datetime.fromisoformat` on strings (it raises only `ValueError` there,
  which the code catches, hence a total `Option`-valued function),
  `floatOfString : String → Option F` models `float(_)` on strings
  (raises only `ValueError`, caught), and `floatOfInt : Int → F` models
  `float(_)` on machine integers within double range.
* Exceptions that the repository code can actually leak are modelled
  explicitly with `Except PyErr`: `AttributeError` from calling
  `.replace` on a truthy non-string (not in the `except` clause of
  `_parse_datetime`) and `OverflowError` from `float(n)` on an integer
  beyond double range (not in the `except` clause of `_safe_float`).
* The PostgreSQL store is modelled by lists of records; the per-cycle
  transaction of `ingest` is modelled by a pending/committed pair:
  statements write to the pending state, `conn.commit()` publishes it,
  an exception discards the pending state.  Database statements are
  numbered in execution order, and a failure oracle
  `failAt : Option (Nat × String)` says which statement (if any) raises
  and with which message; `errLogOk : Bool` says whether the best-effort
  error-log write in the `except` branch succeeds.
* Wall-clock columns (`duration_seconds`, `CURRENT_TIMESTAMP` defaults)
  are outside the model; `datetime.now()` is the cycle parameter `now`.
* `json.dumps(row)` stores the row as an opaque blob; the model keeps
  the row itself (the serialization is injective on these rows and the
  code never reads it back).
-/

/-- A Python value as it can occur in a decoded JSON feed row. -/
inductive PyVal : Type where
  | vNone : PyVal
  | vStr (s : String) : PyVal
  | vInt (n : Int) : PyVal
  | vBool (b : Bool) : PyVal
  deriving DecidableEq, Repr

/-- Python truthiness (`if not value: ...`) on `PyVal`. -/
def pyTruthy : PyVal → Bool
  | PyVal.vNone => false
  | PyVal.vStr s => !(s == "")
  | PyVal.vInt n => !(n == 0)
  | PyVal.vBool b => b

/-- A decoded JSON object (Python `dict`), e.g. one feed row or one
column descriptor: an association list from keys to values. -/
abbrev Row : Type := List (String × PyVal)

/-- Python `row.get(k, d)`: the value at the first occurrence of key
`k`, else the default `d`. -/
def rowGetD : Row → String → PyVal → PyVal
  | [], _, d => d
  | kv :: rest, k, d => if kv.1 = k then kv.2 else rowGetD rest k d

/-- Python `row.get(k)` (default `None`). -/
def rowGet (r : Row) (k : String) : PyVal :=
  rowGetD r k PyVal.vNone

/-- The exceptions that `_parse_datetime` / `_safe_float` can leak
(they catch only `ValueError` and `TypeError`). -/
inductive PyErr : Type where
  | attributeError : PyErr
  | overflowError : PyErr
  deriving DecidableEq, Repr

/-- The `str(e)` text of a leaked parser exception. -/
def pyErrMsg : PyErr → String
  | PyErr.attributeError => "AttributeError: object has no attribute replace"
  | PyErr.overflowError => "OverflowError: int too large to convert to float"

/-- `DispatchIngester._parse_datetime` (src/dispatch_ingester.py lines
266-274).  `if not value: return None`; then
`datetime.fromisoformat(value.replace('Z', '+00:00'))` with
`except (ValueError, TypeError)` yielding `None`.  A truthy non-string
has no `.replace` attribute: `AttributeError` is raised and is not in
the caught tuple. -/
def parse_datetime {D : Type} (fromisoformat : String → Option D)
    (value : PyVal) : Except PyErr (Option D) :=
  if pyTruthy value = false then Except.ok none
  else
    match value with
    | PyVal.vStr s => Except.ok (fromisoformat (s.replace "Z" "+00:00"))
    | _ => Except.error PyErr.attributeError

/-- `DispatchIngester._safe_float` (src/dispatch_ingester.py lines
365-372).  `if value is None or value == '': return None`; then
`float(value)` with `except (ValueError, TypeError)` yielding `None`.
`float` on a string raises only `ValueError` (caught, modelled by
`floatOfString` returning `none`); on an `int` beyond double range it
raises `OverflowError`, which is not in the caught tuple (the bound
`2 ^ 1024` stands for the double-rounding cutoff; its exact boundary
value is irrelevant to every claim); on a `bool` it converts via 0/1. -/
def safe_float {F : Type} (floatOfString : String → Option F)
    (floatOfInt : Int → F) (value : PyVal) : Except PyErr (Option F) :=
  if value = PyVal.vNone ∨ value = PyVal.vStr "" then Except.ok none
  else
    match value with
    | PyVal.vStr s => Except.ok (floatOfString s)
    | PyVal.vInt n =>
        if (2 : Int) ^ 1024 ≤ n ∨ n ≤ -((2 : Int) ^ 1024) then
          Except.error PyErr.overflowError
        else Except.ok (some (floatOfInt n))
    | PyVal.vBool b => Except.ok (some (floatOfInt (if b then 1 else 0)))
    | PyVal.vNone => Except.ok none

/-- The normalized event record built by `_map_row_to_event`
(src/dispatch_ingester.py lines 320-363).  `F` is the double type, `D`
the datetime type (both opaque to the program). -/
structure Event (F D : Type) : Type where
  event_id : PyVal
  call_number : PyVal
  address : PyVal
  call_type : PyVal
  units : PyVal
  call_created : Option D
  jurisdiction : PyVal
  agency_type : PyVal
  longitude : Option F
  latitude : Option F
  link_url_1 : PyVal
  link_url_2 : PyVal
  link_url_3 : PyVal
  link_url_4 : PyVal
  link_url_5 : PyVal
  column_1 : PyVal
  column_2 : PyVal
  column_3 : PyVal
  column_4 : PyVal
  column_5 : PyVal
  column_6 : PyVal
  column_7 : PyVal
  column_8 : PyVal
  column_9 : PyVal
  column_10 : PyVal
  raw_data : Row
  source_title : PyVal
  source_token : String
  deriving DecidableEq, Repr

/-- `DispatchIngester._map_row_to_event` (src/dispatch_ingester.py lines
320-363).  The dict literal evaluates its values in source order, so a
leaked exception from `_parse_datetime` on `Column5` precedes one from
`_safe_float` on `Longitude`, which precedes `Latitude`.  The `columns`
argument is accepted and unused, exactly as in the source. -/
def map_row_to_event {F D : Type} (fromisoformat : String → Option D)
    (floatOfString : String → Option F) (floatOfInt : Int → F)
    (pub_token : String) (row : Row) (columns : List Row)
    (source_title : PyVal) : Except PyErr (Event F D) :=
  match parse_datetime fromisoformat (rowGetD row "Column5" (PyVal.vStr "")) with
  | Except.error e => Except.error e
  | Except.ok call_created_v =>
    match safe_float floatOfString floatOfInt (rowGet row "Longitude") with
    | Except.error e => Except.error e
    | Except.ok longitude_v =>
      match safe_float floatOfString floatOfInt (rowGet row "Latitude") with
      | Except.error e => Except.error e
      | Except.ok latitude_v =>
        Except.ok
          { event_id := rowGetD row "EventID" (PyVal.vStr "")
            call_number := rowGet row "Column1"
            address := rowGet row "Column2"
            call_type := rowGet row "Column3"
            units := rowGet row "Column4"
            call_created := call_created_v
            jurisdiction := rowGet row "Column6"
            agency_type := rowGet row "Column7"
            longitude := longitude_v
            latitude := latitude_v
            link_url_1 := rowGet row "LinkURL1"
            link_url_2 := rowGet row "LinkURL2"
            link_url_3 := rowGet row "LinkURL3"
            link_url_4 := rowGet row "LinkURL4"
            link_url_5 := rowGet row "LinkURL5"
            column_1 := rowGet row "Column1"
            column_2 := rowGet row "Column2"
            column_3 := rowGet row "Column3"
            column_4 := rowGet row "Column4"
            column_5 := rowGet row "Column5"
            column_6 := rowGet row "Column6"
            column_7 := rowGet row "Column7"
            column_8 := rowGet row "Column8"
            column_9 := rowGet row "Column9"
            column_10 := rowGet row "Column10"
            raw_data := row
            source_title := source_title
            source_token := pub_token }

namespace Deploy

/-- `DispatchIngester._parse_datetime` of the deployed copy
(src/deploy/dispatch_ingester.py lines 230-238), transcribed from that
file on its own. -/
def parse_datetime {D : Type} (fromisoformat : String → Option D)
    (value : PyVal) : Except PyErr (Option D) :=
  if pyTruthy value = false then Except.ok none
  else
    match value with
    | PyVal.vStr s => Except.ok (fromisoformat (s.replace "Z" "+00:00"))
    | _ => Except.error PyErr.attributeError

/-- `DispatchIngester._safe_float` of the deployed copy
(src/deploy/dispatch_ingester.py lines 329-336). -/
def safe_float {F : Type} (floatOfString : String → Option F)
    (floatOfInt : Int → F) (value : PyVal) : Except PyErr (Option F) :=
  if value = PyVal.vNone ∨ value = PyVal.vStr "" then Except.ok none
  else
    match value with
    | PyVal.vStr s => Except.ok (floatOfString s)
    | PyVal.vInt n =>
        if (2 : Int) ^ 1024 ≤ n ∨ n ≤ -((2 : Int) ^ 1024) then
          Except.error PyErr.overflowError
        else Except.ok (some (floatOfInt n))
    | PyVal.vBool b => Except.ok (some (floatOfInt (if b then 1 else 0)))
    | PyVal.vNone => Except.ok none

/-- `DispatchIngester._map_row_to_event` of the deployed copy
(src/deploy/dispatch_ingester.py lines 284-327). -/
def map_row_to_event {F D : Type} (fromisoformat : String → Option D)
    (floatOfString : String → Option F) (floatOfInt : Int → F)
    (pub_token : String) (row : Row) (columns : List Row)
    (source_title : PyVal) : Except PyErr (Event F D) :=
  match Deploy.parse_datetime fromisoformat (rowGetD row "Column5" (PyVal.vStr "")) with
  | Except.error e => Except.error e
  | Except.ok call_created_v =>
    match Deploy.safe_float floatOfString floatOfInt (rowGet row "Longitude") with
    | Except.error e => Except.error e
    | Except.ok longitude_v =>
      match Deploy.safe_float floatOfString floatOfInt (rowGet row "Latitude") with
      | Except.error e => Except.error e
      | Except.ok latitude_v =>
        Except.ok
          { event_id := rowGetD row "EventID" (PyVal.vStr "")
            call_number := rowGet row "Column1"
            address := rowGet row "Column2"
            call_type := rowGet row "Column3"
            units := rowGet row "Column4"
            call_created := call_created_v
            jurisdiction := rowGet row "Column6"
            agency_type := rowGet row "Column7"
            longitude := longitude_v
            latitude := latitude_v
            link_url_1 := rowGet row "LinkURL1"
            link_url_2 := rowGet row "LinkURL2"
            link_url_3 := rowGet row "LinkURL3"
            link_url_4 := rowGet row "LinkURL4"
            link_url_5 := rowGet row "LinkURL5"
            column_1 := rowGet row "Column1"
            column_2 := rowGet row "Column2"
            column_3 := rowGet row "Column3"
            column_4 := rowGet row "Column4"
            column_5 := rowGet row "Column5"
            column_6 := rowGet row "Column6"
            column_7 := rowGet row "Column7"
            column_8 := rowGet row "Column8"
            column_9 := rowGet row "Column9"
            column_10 := rowGet row "Column10"
            raw_data := row
            source_title := source_title
            source_token := pub_token }

end Deploy

/-- One row of the `events` table (src/dispatch_ingester.py lines
130-179): the frozen `Event` payload written at insertion, plus the
lifecycle columns.  `T` is the timestamp type of `datetime.now()`. -/
structure StoredEvent (F D T : Type) : Type where
  ev : Event F D
  first_seen : T
  last_seen : T
  times_seen : Nat
  deriving DecidableEq, Repr

/-- One row of the `column_definitions` table (lines 217-227). -/
structure ColDef : Type where
  source_token : String
  column_field : PyVal
  column_header : PyVal
  column_order : Nat
  deriving DecidableEq, Repr

/-- One row of the `source_metadata` table (lines 230-243); `filters`
holds the `json.dumps` blob. -/
structure SourceMeta : Type where
  source_token : String
  title : PyVal
  logo_url : PyVal
  disclaimer : PyVal
  time_format : PyVal
  filters : String
  default_sort_column : PyVal
  default_sort_direction : PyVal
  deriving DecidableEq, Repr

/-- One row of the `ingestion_log` table (lines 202-214); the wall-clock
columns `timestamp` and `duration_seconds` are outside the model. -/
structure LogEntry : Type where
  events_fetched : Nat
  new_events : Nat
  updated_events : Nat
  status : String
  error_message : Option String
  source_token : String
  deriving DecidableEq, Repr

/-- The persistent store: the four tables the ingester writes. -/
structure DB (F D T : Type) : Type where
  events : List (StoredEvent F D T)
  column_defs : List ColDef
  source_meta : List SourceMeta
  ingestion_log : List LogEntry
  deriving DecidableEq, Repr

/-- The freshly provisioned (empty) store. -/
def emptyDB {F D T : Type} : DB F D T :=
  { events := [], column_defs := [], source_meta := [], ingestion_log := [] }

/-- The decoded API response as `ingest` reads it (lines 393-397 and
292-301): `columns := data.get('columns', [])`,
`rows := data.get('rows', [])`, `title := data.get('title', '')`, and
the metadata fields passed to `_save_source_metadata`; `filters` holds
`json.dumps(data.get('filters', []))`. -/
structure Payload : Type where
  columns : List Row
  rows : List Row
  title : PyVal
  logo_url : PyVal
  disclaimer : PyVal
  time_format : PyVal
  filters : String
  default_sort_column : PyVal
  default_sort_direction : PyVal
  deriving DecidableEq, Repr

/-- The `result` dict returned by `ingest` (lines 382-389); the
wall-clock `duration_seconds` is outside the model. -/
structure IngestResult : Type where
  events_fetched : Nat
  new_events : Nat
  updated_events : Nat
  status : String
  error_message : Option String
  deriving DecidableEq, Repr

/-- The `source_metadata` row written by `_save_source_metadata`
(lines 276-301). -/
def sourceMetaRow (token : String) (p : Payload) : SourceMeta :=
  { source_token := token
    title := p.title
    logo_url := p.logo_url
    disclaimer := p.disclaimer
    time_format := p.time_format
    filters := p.filters
    default_sort_column := p.default_sort_column
    default_sort_direction := p.default_sort_direction }

/-- `_save_source_metadata` (lines 276-301): `INSERT ... ON CONFLICT
(source_token) DO UPDATE` — replace the row keyed by the (non-null)
token, else append. -/
def saveSourceMetadata (token : String) (p : Payload)
    (t : List SourceMeta) : List SourceMeta :=
  if (t.any fun r => decide (r.source_token = token)) = true then
    t.map fun r => if r.source_token = token then sourceMetaRow token p else r
  else t ++ [sourceMetaRow token p]

/-- Whether a `column_definitions` row carries the given key. -/
def colKeyIs (token : String) (f : PyVal) (r : ColDef) : Bool :=
  decide (r.source_token = token ∧ r.column_field = f)

/-- One iteration of `_save_column_definitions` (lines 303-318):
`INSERT ... ON CONFLICT (source_token, column_field) DO UPDATE`.
PostgreSQL treats NULLs as distinct in a unique/conflict target, so a
NULL `column_field` (a descriptor without a `field` key) never matches
the conflict target and a fresh row is inserted. -/
def upsertColDef (token : String) (f h : PyVal) (ord : Nat)
    (t : List ColDef) : List ColDef :=
  if f ≠ PyVal.vNone ∧ (t.any (colKeyIs token f)) = true then
    t.map fun r =>
      if colKeyIs token f r = true then
        { r with column_header := h, column_order := ord }
      else r
  else
    t ++ [{ source_token := token, column_field := f, column_header := h,
            column_order := ord }]

/-- The `enumerate(columns)` loop of `_save_column_definitions`, with
`i` the running ordinal. -/
def saveColDefsAux (token : String) : List Row → Nat → List ColDef → List ColDef
  | [], _, t => t
  | c :: cs, i, t =>
      saveColDefsAux token cs (i + 1)
        (upsertColDef token (rowGet c "field") (rowGet c "header") i t)

/-- `_save_column_definitions` (lines 303-318). -/
def saveColumnDefinitions (token : String) (columns : List Row)
    (t : List ColDef) : List ColDef :=
  saveColDefsAux token columns 0 t

/-- The `SELECT id, times_seen FROM events WHERE event_id = %s` lookup
(line 420), reading the transaction's own pending writes. -/
def existsEvent {F D T : Type} (eid : PyVal)
    (evs : List (StoredEvent F D T)) : Bool :=
  evs.any fun r => decide (r.ev.event_id = eid)

/-- The `UPDATE events SET last_seen = %s, times_seen = times_seen + 1
WHERE event_id = %s` statement (lines 425-428). -/
def updateEvent {F D T : Type} (now : T) (eid : PyVal)
    (evs : List (StoredEvent F D T)) : List (StoredEvent F D T) :=
  evs.map fun r =>
    if r.ev.event_id = eid then
      { r with last_seen := now, times_seen := r.times_seen + 1 }
    else r

/-- The `INSERT INTO events (...)` statement (lines 432-477):
`first_seen = last_seen = now`, `times_seen = 1`. -/
def insertEvent {F D T : Type} (now : T) (e : Event F D)
    (evs : List (StoredEvent F D T)) : List (StoredEvent F D T) :=
  evs ++ [{ ev := e, first_seen := now, last_seen := now, times_seen := 1 }]

/-- The effect of the lifecycle UPDATE on one matching row: only
`last_seen` and `times_seen` change. -/
def bumpSeen {F D T : Type} (now : T) (e : StoredEvent F D T) :
    StoredEvent F D T :=
  { e with last_seen := now, times_seen := e.times_seen + 1 }

/-- Whether database statement number `k` is the one that the failure
oracle makes raise. -/
def opFails (failAt : Option (Nat × String)) (k : Nat) : Bool :=
  match failAt with
  | some jm => decide (jm.1 = k)
  | none => false

/-- The `str(e)` text of the failing statement's exception. -/
def failText (failAt : Option (Nat × String)) : String :=
  match failAt with
  | some jm => jm.2
  | none => ""

/-- The `for row in rows:` loop of `ingest` (lines 413-478).  `k` is the
number of the next database statement; a non-skipped row issues two
statements (the SELECT, then the UPDATE or INSERT).  On a raised
exception the loop aborts carrying the counters accumulated so far and
the exception text (the pending, uncommitted writes are simply not
returned). -/
def processRows {F D T : Type} (fi : String → Option D)
    (fs : String → Option F) (fiI : Int → F) (token : String)
    (sourceTitle : PyVal) (columns : List Row)
    (failAt : Option (Nat × String)) (now : T) :
    List Row → Nat → List (StoredEvent F D T) → Nat → Nat →
    Except (Nat × Nat × String) (List (StoredEvent F D T) × Nat × Nat × Nat)
  | [], k, evs, newC, updC => Except.ok (evs, k, newC, updC)
  | row :: rest, k, evs, newC, updC =>
    match map_row_to_event fi fs fiI token row columns sourceTitle with
    | Except.error e => Except.error (newC, updC, pyErrMsg e)
    | Except.ok ev =>
      if pyTruthy ev.event_id = false then
        processRows fi fs fiI token sourceTitle columns failAt now
          rest k evs newC updC
      else if opFails failAt k = true then
        Except.error (newC, updC, failText failAt)
      else if opFails failAt (k + 1) = true then
        Except.error (newC, updC, failText failAt)
      else if existsEvent ev.event_id evs = true then
        processRows fi fs fiI token sourceTitle columns failAt now
          rest (k + 2) (updateEvent now ev.event_id evs) newC (updC + 1)
      else
        processRows fi fs fiI token sourceTitle columns failAt now
          rest (k + 2) (insertEvent now ev evs) (newC + 1) updC

/-- The error-status `ingestion_log` row written in the `except` branch
(lines 506-509): zero counts, the captured text. -/
def mkErrLog (token msg : String) : LogEntry :=
  { events_fetched := 0, new_events := 0, updated_events := 0,
    status := "error", error_message := some msg, source_token := token }

/-- The success `ingestion_log` row (lines 485-488). -/
def mkSuccessLog (token : String) (fetched newC updC : Nat) : LogEntry :=
  { events_fetched := fetched, new_events := newC, updated_events := updC,
    status := "success", error_message := none, source_token := token }

/-- The `except` branch of `ingest` (lines 496-514): the result turns to
`'error'` with the captured text (keeping whatever counters it already
holds), and one zero-count error log row is attempted on a fresh
connection, its own failure swallowed (`except: pass`). -/
def finishError {F D T : Type} (token : String) (committed : DB F D T)
    (errLogOk : Bool) (fetched newC updC : Nat) (msg : String) :
    DB F D T × IngestResult :=
  (if errLogOk then
      { committed with
          ingestion_log := committed.ingestion_log ++ [mkErrLog token msg] }
    else committed,
   { events_fetched := fetched, new_events := newC, updated_events := updC,
     status := "error", error_message := some msg })

/-- The store as published by the first `conn.commit()` (line 480): the
pending metadata upserts and event writes become visible; the
ingestion log is untouched at that point. -/
def commitBody {F D T : Type} (token : String) (db : DB F D T)
    (p : Payload) (evs2 : List (StoredEvent F D T)) : DB F D T :=
  { events := evs2
    column_defs := saveColumnDefinitions token p.columns db.column_defs
    source_meta := saveSourceMetadata token p db.source_meta
    ingestion_log := db.ingestion_log }

/-- `DispatchIngester.ingest` (lines 374-516), one cycle against the
committed store `db`.  Statement numbering in execution order:
0 the HTTP fetch, 1 `_get_connection`, 2 the `source_metadata` upsert,
`3 + j` the upsert of column descriptor `j`, then two per non-skipped
row, then `conn.commit()` (line 480), the success-log INSERT, and the
second `conn.commit()` (line 490).  Pending writes become visible in
the committed store only at a commit; an exception discards them. -/
def runCycle {F D T : Type} (fi : String → Option D)
    (fs : String → Option F) (fiI : Int → F) (token : String)
    (db : DB F D T) (p : Payload) (failAt : Option (Nat × String))
    (errLogOk : Bool) (now : T) : DB F D T × IngestResult :=
  if opFails failAt 0 = true then
    finishError token db errLogOk 0 0 0 (failText failAt)
  else
    if opFails failAt 1 = true then
      finishError token db errLogOk p.rows.length 0 0 (failText failAt)
    else if opFails failAt 2 = true then
      finishError token db errLogOk p.rows.length 0 0 (failText failAt)
    else if ((List.range p.columns.length).any
        fun j => opFails failAt (3 + j)) = true then
      finishError token db errLogOk p.rows.length 0 0 (failText failAt)
    else
      match processRows fi fs fiI token p.title p.columns failAt now
          p.rows (3 + p.columns.length) db.events 0 0 with
      | Except.error num =>
          finishError token db errLogOk p.rows.length num.1 num.2.1 num.2.2
      | Except.ok out =>
          if opFails failAt out.2.1 = true then
            finishError token db errLogOk p.rows.length out.2.2.1 out.2.2.2
              (failText failAt)
          else if opFails failAt (out.2.1 + 1) = true then
            finishError token (commitBody token db p out.1) errLogOk
              p.rows.length out.2.2.1 out.2.2.2 (failText failAt)
          else if opFails failAt (out.2.1 + 2) = true then
            finishError token (commitBody token db p out.1) errLogOk
              p.rows.length out.2.2.1 out.2.2.2 (failText failAt)
          else
            ({ commitBody token db p out.1 with
                ingestion_log := db.ingestion_log ++
                  [mkSuccessLog token p.rows.length out.2.2.1 out.2.2.2] },
             { events_fetched := p.rows.length, new_events := out.2.2.1,
               updated_events := out.2.2.2, status := "success",
               error_message := none })

/-- The inputs of one scheduled cycle: the decoded payload, the failure
oracle for its database statements, whether the best-effort error-log
write would succeed, and `datetime.now()`. -/
structure CycleInput (T : Type) : Type where
  payload : Payload
  failAt : Option (Nat × String)
  errLogOk : Bool
  now : T
  deriving Repr

/-- A sequence of ingestion cycles against the committed store. -/
def runCycles {F D T : Type} (fi : String → Option D)
    (fs : String → Option F) (fiI : Int → F) (token : String) :
    List (CycleInput T) → DB F D T → DB F D T
  | [], db => db
  | c :: cs, db =>
      runCycles fi fs fiI token cs
        (runCycle fi fs fiI token db c.payload c.failAt c.errLogOk c.now).1

/-- A `PyVal` that is a Python `str`. -/
def strVal : PyVal → Bool
  | PyVal.vStr _ => true
  | _ => false

/-- A feed row all of whose values are strings — the shape the spec
ascribes to upstream rows ("a flat mapping of generic column names to
string values"). -/
def strRow (r : Row) : Bool :=
  r.all fun kv => strVal kv.2

/-- The `event_id` the mapper extracts from a raw row:
`row.get('EventID', '')`. -/
def rowEventId (r : Row) : PyVal :=
  rowGetD r "EventID" (PyVal.vStr "")

/-- No two stored events share an `event_id` (the `events.event_id
UNIQUE` constraint, line 133). -/
def idsNodup {F D T : Type} (evs : List (StoredEvent F D T)) : Prop :=
  (evs.map fun e => e.ev.event_id).Nodup

/-- How many rows of a batch carry the (truthy) event id `x` — the rows
of the batch that the reconciler will persist under id `x`. -/
def countId (x : PyVal) (rows : List Row) : Nat :=
  rows.countP fun r => decide (rowEventId r = x ∧ pyTruthy (rowEventId r) = true)

/-- At most one `column_definitions` row per `(source_token,
column_field)` key with a non-null field — the shape the UNIQUE
constraint (line 225) enforces (PostgreSQL exempts NULL fields from
it). -/
def colKeyUnique (t : List ColDef) : Prop :=
  ∀ tok f, f ≠ PyVal.vNone → (t.filter (colKeyIs tok f)).length ≤ 1

/-- Total `times_seen` mass stored under event id `x`. -/
def timesOf {F D T : Type} (x : PyVal) (evs : List (StoredEvent F D T)) : Nat :=
  (((evs.filter fun e => decide (e.ev.event_id = x)).map
      fun e => e.times_seen)).sum

/-- Sample instantiation of `datetime.fromisoformat` (always fails). -/
def noIso : String → Option Nat := fun _ => none

/-- Sample instantiation of `float(_)` on strings (always fails). -/
def noFloat : String → Option Nat := fun _ => none

/-- Sample instantiation of `float(_)` on in-range ints. -/
def intId : Int → Nat := fun _ => 0

/-- A sample feed row carrying only an `EventID`. -/
def rowA : Row := [("EventID", PyVal.vStr "a")]

/-- A second sample feed row with a different `EventID`. -/
def rowB : Row := [("EventID", PyVal.vStr "b")]

/-- A sample decoded API response around the given rows. -/
def samplePayload (rows : List Row) : Payload :=
  ⟨[], rows, PyVal.vStr "T", PyVal.vNone, PyVal.vNone, PyVal.vNone, "[]",
    PyVal.vNone, PyVal.vNone⟩

/-- The event record that `_map_row_to_event` (instantiated with `noIso`,
`noFloat`, `intId`, token `"tok"`, title `"T"`) builds from a row whose
only key is `EventID` mapped to `eid`. -/
def sampleEv (eid : PyVal) (r : Row) : Event Nat Nat :=
  ⟨eid, PyVal.vNone, PyVal.vNone, PyVal.vNone, PyVal.vNone, none,
    PyVal.vNone, PyVal.vNone, none, none, PyVal.vNone, PyVal.vNone,
    PyVal.vNone, PyVal.vNone, PyVal.vNone, PyVal.vNone, PyVal.vNone,
    PyVal.vNone, PyVal.vNone, PyVal.vNone, PyVal.vNone, PyVal.vNone,
    PyVal.vNone, PyVal.vNone, PyVal.vNone, r, PyVal.vStr "T", "tok"⟩

/-! ## Basic lemmas -/

@[simp]
theorem opFails_none (k : Nat) : opFails none k = false := rfl

theorem list_any_const_false {α : Type} (l : List α) :
    (l.any fun _ => false) = false := by
  induction l with
  | nil => rfl
  | cons a t ih => simp [List.any_cons, ih]

theorem parse_datetime_str {D : Type} (fi : String → Option D) (s : String) :
    parse_datetime fi (PyVal.vStr s) =
      Except.ok (if s = "" then none else fi (s.replace "Z" "+00:00")) := by
  by_cases hs : s = "" <;> simp [parse_datetime, pyTruthy, hs]

theorem parse_datetime_vNone {D : Type} (fi : String → Option D) :
    parse_datetime fi PyVal.vNone = Except.ok none := rfl

theorem safe_float_str {F : Type} (fs : String → Option F) (fiI : Int → F)
    (s : String) :
    safe_float fs fiI (PyVal.vStr s) =
      Except.ok (if s = "" then none else fs s) := by
  by_cases hs : s = "" <;> simp [safe_float, hs]

theorem safe_float_vNone {F : Type} (fs : String → Option F) (fiI : Int → F) :
    safe_float fs fiI PyVal.vNone = Except.ok none := by
  simp [safe_float]

theorem map_row_ok_event_id {F D : Type} {fi : String → Option D}
    {fs : String → Option F} {fiI : Int → F} {tok : String} {row : Row}
    {cols : List Row} {st : PyVal} {ev : Event F D}
    (h : map_row_to_event fi fs fiI tok row cols st = Except.ok ev) :
    ev.event_id = rowEventId row := by
  unfold map_row_to_event at h
  split at h
  · exact absurd h (by simp)
  · split at h
    · exact absurd h (by simp)
    · split at h
      · exact absurd h (by simp)
      · simp only [Except.ok.injEq] at h
        rw [← h]
        rfl

theorem rowGetD_strRow {r : Row} (h : strRow r = true) (k : String)
    (s0 : String) : ∃ s, rowGetD r k (PyVal.vStr s0) = PyVal.vStr s := by
  induction r with
  | nil => exact ⟨s0, rfl⟩
  | cons kv rest ih =>
    simp only [strRow, List.all_cons, Bool.and_eq_true] at h
    simp only [rowGetD]
    by_cases hk : kv.1 = k
    · rw [if_pos hk]
      cases hv : kv.2 with
      | vStr s => exact ⟨s, rfl⟩
      | vNone => rw [hv] at h; simp [strVal] at h
      | vInt n => rw [hv] at h; simp [strVal] at h
      | vBool b => rw [hv] at h; simp [strVal] at h
    · rw [if_neg hk]
      exact ih h.2

theorem rowGet_strRow {r : Row} (h : strRow r = true) (k : String) :
    rowGet r k = PyVal.vNone ∨ ∃ s, rowGet r k = PyVal.vStr s := by
  unfold rowGet
  induction r with
  | nil => exact Or.inl rfl
  | cons kv rest ih =>
    simp only [strRow, List.all_cons, Bool.and_eq_true] at h
    simp only [rowGetD]
    by_cases hk : kv.1 = k
    · rw [if_pos hk]
      cases hv : kv.2 with
      | vStr s => exact Or.inr ⟨s, rfl⟩
      | vNone => exact Or.inl rfl
      | vInt n => rw [hv] at h; simp [strVal] at h
      | vBool b => rw [hv] at h; simp [strVal] at h
    · rw [if_neg hk]
      exact ih h.2

theorem safe_float_ok_of_strRow {F : Type} {fs : String → Option F}
    {fiI : Int → F} {r : Row} (h : strRow r = true) (k : String) :
    ∃ o, safe_float fs fiI (rowGet r k) = Except.ok o := by
  rcases rowGet_strRow h k with hv | ⟨s, hv⟩
  · rw [hv]; exact ⟨none, safe_float_vNone fs fiI⟩
  · rw [hv, safe_float_str]; exact ⟨_, rfl⟩

theorem map_row_ok_of_strRow {F D : Type} {fi : String → Option D}
    {fs : String → Option F} {fiI : Int → F} {tok : String} {row : Row}
    {cols : List Row} {st : PyVal} (h : strRow row = true) :
    ∃ ev : Event F D, map_row_to_event fi fs fiI tok row cols st = Except.ok ev := by
  obtain ⟨s5, h5⟩ := rowGetD_strRow h "Column5" ""
  obtain ⟨olon, hlon⟩ := @safe_float_ok_of_strRow F fs fiI row h "Longitude"
  obtain ⟨olat, hlat⟩ := @safe_float_ok_of_strRow F fs fiI row h "Latitude"
  unfold map_row_to_event
  rw [h5, parse_datetime_str, hlon, hlat]
  exact ⟨_, rfl⟩

theorem existsEvent_iff {F D T : Type} (eid : PyVal)
    (evs : List (StoredEvent F D T)) :
    existsEvent eid evs = true ↔ ∃ e ∈ evs, e.ev.event_id = eid := by
  simp [existsEvent, List.any_eq_true]

theorem existsEvent_false_iff {F D T : Type} (eid : PyVal)
    (evs : List (StoredEvent F D T)) :
    existsEvent eid evs = false ↔ ∀ e ∈ evs, e.ev.event_id ≠ eid := by
  rw [← Bool.not_eq_true, existsEvent_iff]
  simp

theorem existsEvent_append {F D T : Type} (eid : PyVal)
    (l1 l2 : List (StoredEvent F D T)) :
    existsEvent eid (l1 ++ l2) = (existsEvent eid l1 || existsEvent eid l2) := by
  simp [existsEvent, List.any_append]

@[simp]
theorem updateEvent_length {F D T : Type} (now : T) (eid : PyVal)
    (evs : List (StoredEvent F D T)) :
    (updateEvent now eid evs).length = evs.length := by
  simp [updateEvent]

theorem updateEvent_ids {F D T : Type} (now : T) (eid : PyVal)
    (evs : List (StoredEvent F D T)) :
    (updateEvent now eid evs).map (fun e => e.ev.event_id) =
      evs.map (fun e => e.ev.event_id) := by
  induction evs with
  | nil => rfl
  | cons a t ih =>
    simp only [updateEvent, List.map_cons] at *
    by_cases ha : a.ev.event_id = eid
    · rw [if_pos ha]; simp [ih]
    · rw [if_neg ha]; simp [ih]

theorem updateEvent_append {F D T : Type} (now : T) (eid : PyVal)
    (l1 l2 : List (StoredEvent F D T)) :
    updateEvent now eid (l1 ++ l2) =
      updateEvent now eid l1 ++ updateEvent now eid l2 := by
  simp [updateEvent]

theorem updateEvent_of_absent {F D T : Type} (now : T) (eid : PyVal) :
    ∀ {evs : List (StoredEvent F D T)},
      (∀ e ∈ evs, e.ev.event_id ≠ eid) → updateEvent now eid evs = evs := by
  intro evs
  induction evs with
  | nil => intro _; rfl
  | cons a t ih =>
    intro h
    simp only [updateEvent, List.map_cons]
    rw [if_neg (h a (List.mem_cons_self a t))]
    have ht := ih fun e he => h e (List.mem_cons_of_mem a he)
    simp only [updateEvent] at ht
    rw [ht]

theorem mem_updateEvent {F D T : Type} {now : T} {eid : PyVal}
    {evs : List (StoredEvent F D T)} {e : StoredEvent F D T}
    (h : e ∈ updateEvent now eid evs) :
    e ∈ evs ∨ e.ev.event_id = eid := by
  unfold updateEvent at h
  rw [List.mem_map] at h
  obtain ⟨a, ha, hae⟩ := h
  by_cases hid : a.ev.event_id = eid
  · rw [if_pos hid] at hae
    right; rw [← hae]; exact hid
  · rw [if_neg hid] at hae
    left; rw [← hae]; exact ha

theorem timesOf_cons {F D T : Type} (x : PyVal) (a : StoredEvent F D T)
    (t : List (StoredEvent F D T)) :
    timesOf x (a :: t) =
      (if a.ev.event_id = x then a.times_seen else 0) + timesOf x t := by
  unfold timesOf
  rw [List.filter_cons]
  by_cases h : a.ev.event_id = x
  · simp [h]
  · simp [h]

theorem timesOf_append {F D T : Type} (x : PyVal)
    (l1 l2 : List (StoredEvent F D T)) :
    timesOf x (l1 ++ l2) = timesOf x l1 + timesOf x l2 := by
  simp [timesOf, List.filter_append]

theorem timesOf_insert {F D T : Type} (x : PyVal) (now : T) (e : Event F D)
    (evs : List (StoredEvent F D T)) :
    timesOf x (insertEvent now e evs) =
      timesOf x evs + (if e.event_id = x then 1 else 0) := by
  unfold insertEvent
  rw [timesOf_append]
  by_cases h : e.event_id = x <;> simp [h, timesOf_cons, timesOf]

theorem updateEvent_cons {F D T : Type} (now : T) (x : PyVal)
    (a : StoredEvent F D T) (t : List (StoredEvent F D T)) :
    updateEvent now x (a :: t) =
      (if a.ev.event_id = x then
        { a with last_seen := now, times_seen := a.times_seen + 1 }
      else a) :: updateEvent now x t := rfl

theorem timesOf_update_eq {F D T : Type} (x : PyVal) (now : T)
    (evs : List (StoredEvent F D T)) :
    timesOf x (updateEvent now x evs) =
      timesOf x evs + (evs.filter fun e => decide (e.ev.event_id = x)).length := by
  induction evs with
  | nil => rfl
  | cons a t ih =>
    rw [updateEvent_cons]
    by_cases h : a.ev.event_id = x
    · rw [if_pos h]
      simp only [timesOf_cons, List.filter_cons, h, decide_True, if_true,
        List.length_cons]
      rw [ih]
      omega
    · rw [if_neg h]
      simp only [timesOf_cons, List.filter_cons, h, decide_False,
        Bool.false_eq_true, if_false, if_neg h]
      rw [ih]
      omega

theorem timesOf_update_other {F D T : Type} {x y : PyVal} (hxy : y ≠ x)
    (now : T) (evs : List (StoredEvent F D T)) :
    timesOf y (updateEvent now x evs) = timesOf y evs := by
  induction evs with
  | nil => rfl
  | cons a t ih =>
    rw [updateEvent_cons]
    by_cases h : a.ev.event_id = x
    · rw [if_pos h]
      have hne : ¬ a.ev.event_id = y := fun hc => hxy (by rw [← hc, h])
      simp only [timesOf_cons]
      rw [if_neg hne, if_neg hne, ih]
    · rw [if_neg h]
      simp only [timesOf_cons]
      rw [ih]

theorem idsNodup_update {F D T : Type} {now : T} {x : PyVal}
    {evs : List (StoredEvent F D T)} (hnd : idsNodup evs) :
    idsNodup (updateEvent now x evs) := by
  unfold idsNodup
  rw [updateEvent_ids]
  exact hnd

theorem idsNodup_insert {F D T : Type} {now : T} {e : Event F D}
    {evs : List (StoredEvent F D T)} (hnd : idsNodup evs)
    (habs : existsEvent e.event_id evs = false) :
    idsNodup (insertEvent now e evs) := by
  unfold idsNodup insertEvent
  rw [List.map_append, List.nodup_append]
  refine ⟨hnd, List.nodup_singleton _, ?_⟩
  intro a ha hb
  simp only [List.map_cons, List.map_nil, List.mem_singleton] at hb
  rw [existsEvent_false_iff] at habs
  obtain ⟨e2, he2, hid⟩ := List.mem_map.mp ha
  exact habs e2 he2 (by rw [hid, hb])

theorem filter_eq_single_of_nodup {F D T : Type} :
    ∀ {evs : List (StoredEvent F D T)}, idsNodup evs →
      ∀ {e : StoredEvent F D T}, e ∈ evs →
        (evs.filter fun e2 => decide (e2.ev.event_id = e.ev.event_id)) = [e] := by
  intro evs
  induction evs with
  | nil => intro _ e he; cases he
  | cons a t ih =>
    intro hnd e he
    have hnd2 : (a.ev.event_id :: t.map fun e2 => e2.ev.event_id).Nodup := hnd
    rw [List.nodup_cons] at hnd2
    rcases List.mem_cons.mp he with rfl | het
    · rw [List.filter_cons, if_pos (by simp)]
      have hnil : (t.filter fun e2 => decide (e2.ev.event_id = e.ev.event_id)) = [] := by
        rw [List.filter_eq_nil_iff]
        intro e2 h2 hc
        simp only [decide_eq_true_eq] at hc
        exact hnd2.1 (by rw [← hc]; exact List.mem_map_of_mem _ h2)
      rw [hnil]
    · have hne : ¬ a.ev.event_id = e.ev.event_id := by
        intro hc
        exact hnd2.1 (by rw [hc]; exact List.mem_map_of_mem _ het)
      rw [List.filter_cons, if_neg (by simpa using hne)]
      exact ih hnd2.2 het

theorem timesOf_eq_of_nodup {F D T : Type} {evs : List (StoredEvent F D T)}
    (hnd : idsNodup evs) {e : StoredEvent F D T} (he : e ∈ evs) :
    timesOf e.ev.event_id evs = e.times_seen := by
  unfold timesOf
  rw [filter_eq_single_of_nodup hnd he]
  simp

theorem updateEvent_get {F D T : Type} (now : T) (x : PyVal)
    (evs : List (StoredEvent F D T)) (i : Nat) (hi : i < evs.length)
    (hi2 : i < (updateEvent now x evs).length) :
    (updateEvent now x evs).get ⟨i, hi2⟩ =
      (fun r : StoredEvent F D T =>
        if r.ev.event_id = x then
          { r with last_seen := now, times_seen := r.times_seen + 1 }
        else r) (evs.get ⟨i, hi⟩) := by
  simp [updateEvent, List.get_eq_getElem, List.getElem_map]

theorem insertEvent_get {F D T : Type} (now : T) (e : Event F D)
    (evs : List (StoredEvent F D T)) (i : Nat) (hi : i < evs.length)
    (hi2 : i < (insertEvent now e evs).length) :
    (insertEvent now e evs).get ⟨i, hi2⟩ = evs.get ⟨i, hi⟩ := by
  simp [insertEvent, List.get_eq_getElem, List.getElem_append_left, hi]

theorem updateEvent_get_frame {F D T : Type} (now : T) (x : PyVal)
    (evs : List (StoredEvent F D T)) (i : Nat) (hi : i < evs.length)
    (hi2 : i < (updateEvent now x evs).length) :
    ((updateEvent now x evs).get ⟨i, hi2⟩).ev = (evs.get ⟨i, hi⟩).ev ∧
    ((updateEvent now x evs).get ⟨i, hi2⟩).first_seen =
      (evs.get ⟨i, hi⟩).first_seen := by
  rw [updateEvent_get now x evs i hi hi2]
  beta_reduce
  split <;> exact ⟨rfl, rfl⟩

theorem processRows_frame {F D T : Type} (fi : String → Option D)
    (fs : String → Option F) (fiI : Int → F) (token : String) (st : PyVal)
    (cols : List Row) (failAt : Option (Nat × String)) (now : T) :
    ∀ (rows : List Row) (k : Nat) (evs : List (StoredEvent F D T)) (n u : Nat)
      {evs' : List (StoredEvent F D T)} {k' n' u' : Nat},
      processRows fi fs fiI token st cols failAt now rows k evs n u =
        Except.ok (evs', k', n', u') →
      evs.length ≤ evs'.length ∧
        ∀ i, ∀ hi : i < evs.length, ∀ hi2 : i < evs'.length,
          (evs'.get ⟨i, hi2⟩).ev = (evs.get ⟨i, hi⟩).ev ∧
          (evs'.get ⟨i, hi2⟩).first_seen = (evs.get ⟨i, hi⟩).first_seen := by
  intro rows
  induction rows with
  | nil =>
    intro k evs n u evs' k' n' u' h
    simp only [processRows, Except.ok.injEq, Prod.mk.injEq] at h
    obtain ⟨h1, -, -, -⟩ := h
    subst h1
    exact ⟨le_refl _, fun i hi hi2 => ⟨rfl, rfl⟩⟩
  | cons row rest ih =>
    intro k evs n u evs' k' n' u' h
    cases hm : map_row_to_event fi fs fiI token row cols st with
    | error e =>
      simp only [processRows, hm] at h
      exact Except.noConfusion h
    | ok ev =>
      simp only [processRows, hm] at h
      by_cases ht : pyTruthy ev.event_id = false
      · rw [if_pos ht] at h
        exact ih _ _ _ _ h
      · rw [if_neg ht] at h
        by_cases h1 : opFails failAt k = true
        · rw [if_pos h1] at h
          exact Except.noConfusion h
        · rw [if_neg h1] at h
          by_cases h2 : opFails failAt (k + 1) = true
          · rw [if_pos h2] at h
            exact Except.noConfusion h
          · rw [if_neg h2] at h
            by_cases h3 : existsEvent ev.event_id evs = true
            · rw [if_pos h3] at h
              obtain ⟨hlen, hget⟩ := ih _ _ _ _ h
              rw [updateEvent_length] at hlen
              refine ⟨hlen, fun i hi hi2 => ?_⟩
              have hiu : i < (updateEvent now ev.event_id evs).length := by
                rw [updateEvent_length]; exact hi
              obtain ⟨he1, he2⟩ := hget i hiu hi2
              obtain ⟨hu1, hu2⟩ :=
                updateEvent_get_frame now ev.event_id evs i hi hiu
              exact ⟨he1.trans hu1, he2.trans hu2⟩
            · rw [if_neg h3] at h
              obtain ⟨hlen, hget⟩ := ih _ _ _ _ h
              have hlen2 : evs.length ≤ evs'.length := by
                refine le_trans ?_ hlen
                simp [insertEvent]
              refine ⟨hlen2, fun i hi hi2 => ?_⟩
              have hii : i < (insertEvent now ev evs).length := by
                simp only [insertEvent, List.length_append, List.length_cons,
                  List.length_nil]
                omega
              obtain ⟨he1, he2⟩ := hget i hii hi2
              rw [insertEvent_get now ev evs i hi hii] at he1 he2
              exact ⟨he1, he2⟩

theorem processRows_nodup {F D T : Type} (fi : String → Option D)
    (fs : String → Option F) (fiI : Int → F) (token : String) (st : PyVal)
    (cols : List Row) (failAt : Option (Nat × String)) (now : T) :
    ∀ (rows : List Row) (k : Nat) (evs : List (StoredEvent F D T)) (n u : Nat)
      {evs' : List (StoredEvent F D T)} {k' n' u' : Nat},
      processRows fi fs fiI token st cols failAt now rows k evs n u =
        Except.ok (evs', k', n', u') →
      idsNodup evs → idsNodup evs' := by
  intro rows
  induction rows with
  | nil =>
    intro k evs n u evs' k' n' u' h hnd
    simp only [processRows, Except.ok.injEq, Prod.mk.injEq] at h
    obtain ⟨h1, -, -, -⟩ := h
    subst h1
    exact hnd
  | cons row rest ih =>
    intro k evs n u evs' k' n' u' h hnd
    cases hm : map_row_to_event fi fs fiI token row cols st with
    | error e =>
      simp only [processRows, hm] at h
      exact Except.noConfusion h
    | ok ev =>
      simp only [processRows, hm] at h
      by_cases ht : pyTruthy ev.event_id = false
      · rw [if_pos ht] at h
        exact ih _ _ _ _ h hnd
      · rw [if_neg ht] at h
        by_cases h1 : opFails failAt k = true
        · rw [if_pos h1] at h
          exact Except.noConfusion h
        · rw [if_neg h1] at h
          by_cases h2 : opFails failAt (k + 1) = true
          · rw [if_pos h2] at h
            exact Except.noConfusion h
          · rw [if_neg h2] at h
            by_cases h3 : existsEvent ev.event_id evs = true
            · rw [if_pos h3] at h
              exact ih _ _ _ _ h (idsNodup_update hnd)
            · rw [if_neg h3] at h
              exact ih _ _ _ _ h
                (idsNodup_insert hnd (Bool.not_eq_true _ ▸ h3))

theorem countId_cons (x : PyVal) (r : Row) (rest : List Row) :
    countId x (r :: rest) = countId x rest +
      (if rowEventId r = x ∧ pyTruthy (rowEventId r) = true then 1 else 0) := by
  unfold countId
  rw [List.countP_cons]
  by_cases h : rowEventId r = x ∧ pyTruthy (rowEventId r) = true <;> simp [h]

theorem processRows_counts {F D T : Type} (fi : String → Option D)
    (fs : String → Option F) (fiI : Int → F) (token : String) (st : PyVal)
    (cols : List Row) (now : T) :
    ∀ (rows : List Row), (∀ r ∈ rows, strRow r = true) →
      ∀ (k : Nat) (evs : List (StoredEvent F D T)) (n u : Nat),
      ∃ evs' k' n' u',
        processRows fi fs fiI token st cols none now rows k evs n u =
          Except.ok (evs', k', n', u') ∧
        n' + u' = n + u + rows.countP (fun r => pyTruthy (rowEventId r)) ∧
        ∀ e ∈ evs', e ∈ evs ∨ pyTruthy e.ev.event_id = true := by
  intro rows
  induction rows with
  | nil =>
    intro _ k evs n u
    refine ⟨evs, k, n, u, rfl, by simp, fun e he => Or.inl he⟩
  | cons row rest ih =>
    intro hstr k evs n u
    obtain ⟨ev, hm⟩ := @map_row_ok_of_strRow F D fi fs fiI token row cols
      st (hstr row (List.mem_cons_self row rest))
    have hid : ev.event_id = rowEventId row := map_row_ok_event_id hm
    have hstr2 : ∀ r ∈ rest, strRow r = true :=
      fun r hr => hstr r (List.mem_cons_of_mem row hr)
    by_cases ht : pyTruthy ev.event_id = false
    · obtain ⟨evs', k', n', u', heq, hcnt, hmem⟩ := ih hstr2 k evs n u
      refine ⟨evs', k', n', u', ?_, ?_, hmem⟩
      · simp only [processRows, hm, if_pos ht]
        exact heq
      · rw [List.countP_cons]
        have : pyTruthy (rowEventId row) = false := hid ▸ ht
        simp [this, hcnt]
    · by_cases hex : existsEvent ev.event_id evs = true
      · obtain ⟨evs', k', n', u', heq, hcnt, hmem⟩ :=
          ih hstr2 (k + 2) (updateEvent now ev.event_id evs) n (u + 1)
        refine ⟨evs', k', n', u', ?_, ?_, ?_⟩
        · simp only [processRows, hm, if_neg ht, opFails_none,
            Bool.false_eq_true, if_false, if_pos hex]
          exact heq
        · rw [List.countP_cons]
          have htt : pyTruthy (rowEventId row) = true := by
            rw [← hid]
            exact Bool.not_eq_false _ ▸ ht
          simp [htt]
          omega
        · intro e he
          rcases hmem e he with hin | htr
          · rcases mem_updateEvent hin with hin2 | hidm
            · exact Or.inl hin2
            · right
              rw [hidm]
              exact Bool.not_eq_false _ ▸ ht
          · exact Or.inr htr
      · obtain ⟨evs', k', n', u', heq, hcnt, hmem⟩ :=
          ih hstr2 (k + 2) (insertEvent now ev evs) (n + 1) u
        refine ⟨evs', k', n', u', ?_, ?_, ?_⟩
        · simp only [processRows, hm, if_neg ht, opFails_none,
            Bool.false_eq_true, if_false, if_neg hex]
          exact heq
        · rw [List.countP_cons]
          have htt : pyTruthy (rowEventId row) = true := by
            rw [← hid]
            exact Bool.not_eq_false _ ▸ ht
          simp [htt]
          omega
        · intro e he
          rcases hmem e he with hin | htr
          · unfold insertEvent at hin
            rcases List.mem_append.mp hin with hin2 | hin3
            · exact Or.inl hin2
            · right
              rw [List.mem_singleton] at hin3
              rw [hin3]
              exact Bool.not_eq_false _ ▸ ht
          · exact Or.inr htr

theorem processRows_all_new {F D T : Type} (fi : String → Option D)
    (fs : String → Option F) (fiI : Int → F) (token : String) (st : PyVal)
    (cols : List Row) (now : T) :
    ∀ (rows : List Row),
      (∀ r ∈ rows, ∃ ev : Event F D,
        map_row_to_event fi fs fiI token r cols st = Except.ok ev) →
      (∀ r ∈ rows, pyTruthy (rowEventId r) = true) →
      rows.Pairwise (fun a b => rowEventId a ≠ rowEventId b) →
      ∀ (k : Nat) (evs : List (StoredEvent F D T)) (n u : Nat),
        (∀ r ∈ rows, existsEvent (rowEventId r) evs = false) →
        ∃ fresh : List (StoredEvent F D T),
          processRows fi fs fiI token st cols none now rows k evs n u =
            Except.ok (evs ++ fresh, k + 2 * rows.length, n + rows.length, u) ∧
          fresh.map (fun e => e.ev.event_id) = rows.map rowEventId ∧
          ∀ e ∈ fresh, e.first_seen = now ∧ e.last_seen = now ∧
            e.times_seen = 1 := by
  intro rows
  induction rows with
  | nil =>
    intro _ _ _ k evs n u _
    exact ⟨[], by simp [processRows], rfl, by simp⟩
  | cons row rest ih =>
    intro hmap htr hpw k evs n u habs
    obtain ⟨ev, hm⟩ := hmap row (List.mem_cons_self row rest)
    have hid : ev.event_id = rowEventId row := map_row_ok_event_id hm
    have ht : ¬ pyTruthy ev.event_id = false := by
      rw [hid, htr row (List.mem_cons_self row rest)]
      simp
    have hex : ¬ existsEvent ev.event_id evs = true := by
      rw [hid, habs row (List.mem_cons_self row rest)]
      simp
    rw [List.pairwise_cons] at hpw
    have habs2 : ∀ r ∈ rest,
        existsEvent (rowEventId r) (insertEvent now ev evs) = false := by
      intro r hr
      unfold insertEvent
      rw [existsEvent_append]
      rw [habs r (List.mem_cons_of_mem row hr)]
      simp only [Bool.false_or]
      simp only [existsEvent, List.any_cons, List.any_nil, Bool.or_false]
      rw [decide_eq_false]
      rw [hid]
      exact hpw.1 r hr
    obtain ⟨fresh, heq, hids, hprops⟩ := ih
      (fun r hr => hmap r (List.mem_cons_of_mem row hr))
      (fun r hr => htr r (List.mem_cons_of_mem row hr))
      hpw.2 (k + 2) (insertEvent now ev evs) (n + 1) u habs2
    refine ⟨{ ev := ev, first_seen := now, last_seen := now,
              times_seen := 1 } :: fresh, ?_, ?_, ?_⟩
    · simp only [processRows, hm, if_neg ht, opFails_none,
        Bool.false_eq_true, if_false, if_neg hex]
      rw [heq]
      simp only [insertEvent, List.append_assoc, List.singleton_append,
        Except.ok.injEq, Prod.mk.injEq, List.length_cons]
      refine ⟨trivial, by omega, by omega, trivial⟩
    · simp only [List.map_cons, hids, hid]
    · intro e he
      rcases List.mem_cons.mp he with rfl | he2
      · exact ⟨rfl, rfl, rfl⟩
      · exact hprops e he2


theorem processRows_all_update {F D T : Type} (fi : String → Option D)
    (fs : String → Option F) (fiI : Int → F) (token : String) (st : PyVal)
    (cols : List Row) (now : T) :
    ∀ (rows : List Row),
      (∀ r ∈ rows, ∃ ev : Event F D,
        map_row_to_event fi fs fiI token r cols st = Except.ok ev) →
      (∀ r ∈ rows, pyTruthy (rowEventId r) = true) →
      rows.Pairwise (fun a b => rowEventId a ≠ rowEventId b) →
      ∀ (P Q : List (StoredEvent F D T)) (k n u : Nat),
        Q.map (fun e => e.ev.event_id) = rows.map rowEventId →
        (∀ e ∈ P, ∀ r ∈ rows, e.ev.event_id ≠ rowEventId r) →
        processRows fi fs fiI token st cols none now rows k (P ++ Q) n u =
          Except.ok (P ++ Q.map (bumpSeen now),
            k + 2 * rows.length, n, u + rows.length) := by
  intro rows
  induction rows with
  | nil =>
    intro _ _ _ P Q k n u hQ _
    have hQnil : Q = [] := by
      have h2 : Q.map (fun e => e.ev.event_id) = [] := by simpa using hQ
      exact List.map_eq_nil_iff.mp h2
    subst hQnil
    simp [processRows]
  | cons row rest ih =>
    intro hmap htr hpw P Q k n u hQ hP
    cases Q with
    | nil => simp at hQ
    | cons q qs =>
      simp only [List.map_cons, List.cons.injEq] at hQ
      obtain ⟨hq1, hqsmap⟩ := hQ
      obtain ⟨ev, hm⟩ := hmap row (List.mem_cons_self row rest)
      have hid : ev.event_id = rowEventId row := map_row_ok_event_id hm
      have ht : ¬ pyTruthy ev.event_id = false := by
        rw [hid, htr row (List.mem_cons_self row rest)]
        simp
      rw [List.pairwise_cons] at hpw
      have hex : existsEvent ev.event_id (P ++ q :: qs) = true := by
        rw [existsEvent_iff]
        exact ⟨q, by simp, by rw [hq1, hid]⟩
      have hPq : ∀ e ∈ P, e.ev.event_id ≠ ev.event_id := by
        intro e he
        rw [hid]
        exact hP e he row (List.mem_cons_self row rest)
      have hqsne : ∀ e ∈ qs, e.ev.event_id ≠ ev.event_id := by
        intro e he hc
        have hmem : e.ev.event_id ∈ rest.map rowEventId := by
          rw [← hqsmap]
          exact List.mem_map_of_mem _ he
        obtain ⟨r2, hr2, hr2e⟩ := List.mem_map.mp hmem
        apply hpw.1 r2 hr2
        rw [← hid, ← hc, hr2e]
      have hupd : updateEvent now ev.event_id (P ++ q :: qs) =
          (P ++ [bumpSeen now q]) ++ qs := by
        rw [updateEvent_append, updateEvent_cons,
          updateEvent_of_absent now ev.event_id hPq,
          updateEvent_of_absent now ev.event_id hqsne,
          if_pos (by rw [hq1, hid])]
        rw [List.append_assoc]
        rfl
      have hPnew : ∀ e ∈ P ++ [bumpSeen now q], ∀ r2 ∈ rest,
          e.ev.event_id ≠ rowEventId r2 := by
        intro e he r2 hr2
        rcases List.mem_append.mp he with heP | heq
        · exact hP e heP r2 (List.mem_cons_of_mem row hr2)
        · rw [List.mem_singleton] at heq
          subst heq
          simpa [bumpSeen, hq1] using hpw.1 r2 hr2
      have hrec := ih
        (fun r hr => hmap r (List.mem_cons_of_mem row hr))
        (fun r hr => htr r (List.mem_cons_of_mem row hr))
        hpw.2 (P ++ [bumpSeen now q]) qs (k + 2) n (u + 1) hqsmap hPnew
      simp only [processRows, hm, if_neg ht, opFails_none,
        Bool.false_eq_true, if_false, if_pos hex]
      rw [hupd, hrec]
      simp only [Except.ok.injEq, Prod.mk.injEq, List.length_cons,
        List.map_cons, List.append_assoc, List.singleton_append]
      refine ⟨trivial, by omega, trivial, by omega⟩

theorem processRows_times {F D T : Type} (fi : String → Option D)
    (fs : String → Option F) (fiI : Int → F) (token : String) (st : PyVal)
    (cols : List Row) (now : T) :
    ∀ (rows : List Row),
      (∀ r ∈ rows, ∃ ev : Event F D,
        map_row_to_event fi fs fiI token r cols st = Except.ok ev) →
      ∀ (k : Nat) (evs : List (StoredEvent F D T)) (n u : Nat), idsNodup evs →
      ∃ evs' k' n' u',
        processRows fi fs fiI token st cols none now rows k evs n u =
          Except.ok (evs', k', n', u') ∧
        idsNodup evs' ∧
        ∀ x, timesOf x evs' = timesOf x evs + countId x rows := by
  intro rows
  induction rows with
  | nil =>
    intro _ k evs n u hnd
    exact ⟨evs, k, n, u, rfl, hnd, fun x => by simp [countId]⟩
  | cons row rest ih =>
    intro hmap k evs n u hnd
    obtain ⟨ev, hm⟩ := hmap row (List.mem_cons_self row rest)
    have hid : ev.event_id = rowEventId row := map_row_ok_event_id hm
    have hmap2 : ∀ r ∈ rest, ∃ ev2 : Event F D,
        map_row_to_event fi fs fiI token r cols st = Except.ok ev2 :=
      fun r hr => hmap r (List.mem_cons_of_mem row hr)
    by_cases ht : pyTruthy ev.event_id = false
    · obtain ⟨evs', k', n', u', heq, hnd', htimes⟩ := ih hmap2 k evs n u hnd
      refine ⟨evs', k', n', u', ?_, hnd', ?_⟩
      · simp only [processRows, hm, if_pos ht]
        exact heq
      · intro x
        rw [htimes x, countId_cons]
        have hff : pyTruthy (rowEventId row) = false := hid ▸ ht
        simp [hff]
    · have htt : pyTruthy (rowEventId row) = true := by
        rw [← hid]
        exact Bool.not_eq_false _ ▸ ht
      by_cases hex : existsEvent ev.event_id evs = true
      · obtain ⟨evs', k', n', u', heq, hnd', htimes⟩ :=
          ih hmap2 (k + 2) (updateEvent now ev.event_id evs) n (u + 1)
            (idsNodup_update hnd)
        refine ⟨evs', k', n', u', ?_, hnd', ?_⟩
        · simp only [processRows, hm, if_neg ht, opFails_none,
            Bool.false_eq_true, if_false, if_pos hex]
          exact heq
        · intro x
          rw [htimes x, countId_cons]
          by_cases hx : x = ev.event_id
          · subst hx
            rw [timesOf_update_eq]
            obtain ⟨e0, he0, he0id⟩ := (existsEvent_iff _ _).mp hex
            have hfil : (evs.filter fun e2 =>
                decide (e2.ev.event_id = ev.event_id)) = [e0] := by
              have h2 := filter_eq_single_of_nodup hnd he0
              rw [he0id] at h2
              exact h2
            rw [hfil]
            have hcond : rowEventId row = ev.event_id ∧
                pyTruthy (rowEventId row) = true := ⟨hid.symm, htt⟩
            rw [if_pos hcond]
            simp
            omega
          · rw [timesOf_update_other hx]
            have hcond : ¬ (rowEventId row = x ∧
                pyTruthy (rowEventId row) = true) := by
              intro hc
              exact hx (by rw [← hc.1, hid])
            rw [if_neg hcond]
            omega
      · obtain ⟨evs', k', n', u', heq, hnd', htimes⟩ :=
          ih hmap2 (k + 2) (insertEvent now ev evs) (n + 1) u
            (idsNodup_insert hnd (Bool.not_eq_true _ ▸ hex))
        refine ⟨evs', k', n', u', ?_, hnd', ?_⟩
        · simp only [processRows, hm, if_neg ht, opFails_none,
            Bool.false_eq_true, if_false, if_neg hex]
          exact heq
        · intro x
          rw [htimes x, countId_cons, timesOf_insert]
          by_cases hx : ev.event_id = x
          · have hcond : rowEventId row = x ∧
                pyTruthy (rowEventId row) = true := ⟨by rw [← hid, hx], htt⟩
            rw [if_pos hx, if_pos hcond]
            omega
          · have hcond : ¬ (rowEventId row = x ∧
                pyTruthy (rowEventId row) = true) := by
              intro hc
              exact hx (by rw [hid, hc.1])
            rw [if_neg hx, if_neg hcond]
            omega

theorem finishError_shape {F D T : Type} (token : String)
    (committed : DB F D T) (elog : Bool) (f nc uc : Nat) (msg : String) :
    (finishError token committed elog f nc uc msg).2.status = "error" ∧
    (finishError token committed elog f nc uc msg).2.error_message = some msg ∧
    (finishError token committed elog f nc uc msg).2.new_events = nc ∧
    (finishError token committed elog f nc uc msg).2.updated_events = uc ∧
    (finishError token committed elog f nc uc msg).2.events_fetched = f ∧
    (finishError token committed elog f nc uc msg).1.events =
      committed.events ∧
    (finishError token committed elog f nc uc msg).1.ingestion_log =
      committed.ingestion_log ++ (if elog then [mkErrLog token msg] else []) := by
  cases elog <;> simp [finishError]

theorem runCycle_none {F D T : Type} (fi : String → Option D)
    (fs : String → Option F) (fiI : Int → F) (token : String) (db : DB F D T)
    (p : Payload) (elog : Bool) (now : T)
    {evs2 : List (StoredEvent F D T)} {k1 n u : Nat}
    (hpr : processRows fi fs fiI token p.title p.columns none now p.rows
      (3 + p.columns.length) db.events 0 0 = Except.ok (evs2, k1, n, u)) :
    runCycle fi fs fiI token db p none elog now =
      ({ events := evs2
         column_defs := saveColumnDefinitions token p.columns db.column_defs
         source_meta := saveSourceMetadata token p db.source_meta
         ingestion_log := db.ingestion_log ++
           [mkSuccessLog token p.rows.length n u] },
       { events_fetched := p.rows.length, new_events := n,
         updated_events := u, status := "success",
         error_message := none }) := by
  unfold runCycle
  simp only [opFails_none, Bool.false_eq_true, if_false,
    list_any_const_false, hpr, commitBody]

theorem runCycle_shape {F D T : Type} (fi : String → Option D)
    (fs : String → Option F) (fiI : Int → F) (token : String) (db : DB F D T)
    (p : Payload) (failAt : Option (Nat × String)) (elog : Bool) (now : T)
    (out : DB F D T × IngestResult)
    (hout : runCycle fi fs fiI token db p failAt elog now = out) :
    (out.2.status = "success" ∧ out.2.error_message = none ∧
      out.1.ingestion_log = db.ingestion_log ++
        [mkSuccessLog token p.rows.length out.2.new_events
          out.2.updated_events] ∧
      ∃ k1, processRows fi fs fiI token p.title p.columns failAt now p.rows
        (3 + p.columns.length) db.events 0 0 =
          Except.ok (out.1.events, k1, out.2.new_events,
            out.2.updated_events)) ∨
    (∃ m, out.2.status = "error" ∧ out.2.error_message = some m ∧
      out.1.ingestion_log = db.ingestion_log ++
        (if elog then [mkErrLog token m] else []) ∧
      (out.1.events = db.events ∨
        ∃ k1, processRows fi fs fiI token p.title p.columns failAt now p.rows
          (3 + p.columns.length) db.events 0 0 =
            Except.ok (out.1.events, k1, out.2.new_events,
              out.2.updated_events))) := by
  unfold runCycle at hout
  by_cases h0 : opFails failAt 0 = true
  · rw [if_pos h0] at hout
    rw [← hout]
    obtain ⟨s1, s2, s3, s4, s5, s6, s7⟩ :=
      finishError_shape token db elog 0 0 0 (failText failAt)
    exact Or.inr ⟨failText failAt, s1, s2, s7, Or.inl s6⟩
  · rw [if_neg h0] at hout
    by_cases h1 : opFails failAt 1 = true
    · rw [if_pos h1] at hout
      rw [← hout]
      obtain ⟨s1, s2, s3, s4, s5, s6, s7⟩ :=
        finishError_shape token db elog p.rows.length 0 0 (failText failAt)
      exact Or.inr ⟨failText failAt, s1, s2, s7, Or.inl s6⟩
    · rw [if_neg h1] at hout
      by_cases h2 : opFails failAt 2 = true
      · rw [if_pos h2] at hout
        rw [← hout]
        obtain ⟨s1, s2, s3, s4, s5, s6, s7⟩ :=
          finishError_shape token db elog p.rows.length 0 0 (failText failAt)
        exact Or.inr ⟨failText failAt, s1, s2, s7, Or.inl s6⟩
      · rw [if_neg h2] at hout
        by_cases h3 : ((List.range p.columns.length).any
            fun j => opFails failAt (3 + j)) = true
        · rw [if_pos h3] at hout
          rw [← hout]
          obtain ⟨s1, s2, s3, s4, s5, s6, s7⟩ :=
            finishError_shape token db elog p.rows.length 0 0 (failText failAt)
          exact Or.inr ⟨failText failAt, s1, s2, s7, Or.inl s6⟩
        · rw [if_neg h3] at hout
          cases hpr : processRows fi fs fiI token p.title p.columns failAt now
              p.rows (3 + p.columns.length) db.events 0 0 with
          | error num =>
            rw [hpr] at hout
            dsimp only at hout
            rw [← hout]
            obtain ⟨s1, s2, s3, s4, s5, s6, s7⟩ :=
              finishError_shape token db elog p.rows.length num.1 num.2.1
                num.2.2
            exact Or.inr ⟨num.2.2, s1, s2, s7, Or.inl s6⟩
          | ok pout =>
            rw [hpr] at hout
            dsimp only at hout
            by_cases h4 : opFails failAt pout.2.1 = true
            · rw [if_pos h4] at hout
              rw [← hout]
              obtain ⟨s1, s2, s3, s4, s5, s6, s7⟩ :=
                finishError_shape token db elog p.rows.length pout.2.2.1
                  pout.2.2.2 (failText failAt)
              exact Or.inr ⟨failText failAt, s1, s2, s7, Or.inl s6⟩
            · rw [if_neg h4] at hout
              by_cases h5 : opFails failAt (pout.2.1 + 1) = true
              · rw [if_pos h5] at hout
                rw [← hout]
                obtain ⟨s1, s2, s3, s4, s5, s6, s7⟩ :=
                  finishError_shape token (commitBody token db p pout.1) elog
                    p.rows.length pout.2.2.1 pout.2.2.2 (failText failAt)
                refine Or.inr ⟨failText failAt, s1, s2, ?_, Or.inr ⟨pout.2.1, ?_⟩⟩
                · rw [s7]
                  rfl
                · rw [s6]
                  rfl
              · rw [if_neg h5] at hout
                by_cases h6 : opFails failAt (pout.2.1 + 2) = true
                · rw [if_pos h6] at hout
                  rw [← hout]
                  obtain ⟨s1, s2, s3, s4, s5, s6, s7⟩ :=
                    finishError_shape token (commitBody token db p pout.1) elog
                      p.rows.length pout.2.2.1 pout.2.2.2 (failText failAt)
                  refine Or.inr ⟨failText failAt, s1, s2, ?_,
                    Or.inr ⟨pout.2.1, ?_⟩⟩
                  · rw [s7]
                    rfl
                  · rw [s6]
                    rfl
                · rw [if_neg h6] at hout
                  rw [← hout]
                  exact Or.inl ⟨rfl, rfl, rfl, ⟨pout.2.1, rfl⟩⟩

theorem runCycle_nodup {F D T : Type} (fi : String → Option D)
    (fs : String → Option F) (fiI : Int → F) (token : String) (db : DB F D T)
    (p : Payload) (failAt : Option (Nat × String)) (elog : Bool) (now : T)
    (hnd : idsNodup db.events) :
    idsNodup (runCycle fi fs fiI token db p failAt elog now).1.events := by
  rcases runCycle_shape fi fs fiI token db p failAt elog now _ rfl with
    ⟨-, -, -, k1, hpr⟩ | ⟨m, -, -, -, hev⟩
  · exact processRows_nodup fi fs fiI token p.title p.columns failAt now
      p.rows _ _ _ _ hpr hnd
  · rcases hev with hev | ⟨k1, hpr⟩
    · rw [hev]
      exact hnd
    · exact processRows_nodup fi fs fiI token p.title p.columns failAt now
        p.rows _ _ _ _ hpr hnd

theorem runCycles_nodup {F D T : Type} (fi : String → Option D)
    (fs : String → Option F) (fiI : Int → F) (token : String) :
    ∀ (inputs : List (CycleInput T)) (db : DB F D T), idsNodup db.events →
      idsNodup (runCycles fi fs fiI token inputs db).events := by
  intro inputs
  induction inputs with
  | nil => intro db hnd; exact hnd
  | cons c cs ih =>
    intro db hnd
    exact ih _ (runCycle_nodup fi fs fiI token db c.payload c.failAt
      c.errLogOk c.now hnd)

theorem runCycles_times {F D T : Type} (fi : String → Option D)
    (fs : String → Option F) (fiI : Int → F) (token : String) :
    ∀ (inputs : List (CycleInput T)) (db : DB F D T),
      (∀ c ∈ inputs, c.failAt = none) →
      (∀ c ∈ inputs, ∀ r ∈ c.payload.rows, strRow r = true) →
      idsNodup db.events →
      idsNodup (runCycles fi fs fiI token inputs db).events ∧
      ∀ x, timesOf x (runCycles fi fs fiI token inputs db).events =
        timesOf x db.events +
          (inputs.map fun c => countId x c.payload.rows).sum := by
  intro inputs
  induction inputs with
  | nil =>
    intro db _ _ hnd
    exact ⟨hnd, fun x => by simp [runCycles]⟩
  | cons c cs ih =>
    intro db hfail hstr hnd
    have hmap : ∀ r ∈ c.payload.rows, ∃ ev : Event F D,
        map_row_to_event fi fs fiI token r c.payload.columns
          c.payload.title = Except.ok ev :=
      fun r hr => map_row_ok_of_strRow
        (hstr c (List.mem_cons_self c cs) r hr)
    obtain ⟨evs', k', n', u', hpr, hnd', htimes⟩ :=
      processRows_times fi fs fiI token c.payload.title c.payload.columns
        c.now c.payload.rows hmap (3 + c.payload.columns.length)
        db.events 0 0 hnd
    have hstep : runCycles fi fs fiI token (c :: cs) db =
        runCycles fi fs fiI token cs
          (runCycle fi fs fiI token db c.payload c.failAt
            c.errLogOk c.now).1 := rfl
    rw [hstep, hfail c (List.mem_cons_self c cs),
      runCycle_none fi fs fiI token db c.payload c.errLogOk c.now hpr]
    obtain ⟨h1, h2⟩ := ih
      { events := evs'
        column_defs := saveColumnDefinitions token c.payload.columns
          db.column_defs
        source_meta := saveSourceMetadata token c.payload db.source_meta
        ingestion_log := db.ingestion_log ++
          [mkSuccessLog token c.payload.rows.length n' u'] }
      (fun c2 hc2 => hfail c2 (List.mem_cons_of_mem c hc2))
      (fun c2 hc2 => hstr c2 (List.mem_cons_of_mem c hc2))
      hnd'
    refine ⟨h1, fun x => ?_⟩
    rw [h2 x]
    simp only [List.map_cons, List.sum_cons]
    have := htimes x
    simp only at this
    rw [this]
    omega

theorem colKeyIs_update (tok : String) (f : PyVal) (r : ColDef)
    (h2 o2 : PyVal × Nat) :
    colKeyIs tok f { r with column_header := h2.1, column_order := h2.2 } =
      colKeyIs tok f r := rfl

theorem filter_map_upsert (token : String) (g h : PyVal) (ord : Nat)
    (tok : String) (f : PyVal) (hne : ¬ (tok = token ∧ f = g)) :
    ∀ t : List ColDef,
      (t.map fun r => if colKeyIs token g r = true then
        { r with column_header := h, column_order := ord } else r).filter
          (colKeyIs tok f) = t.filter (colKeyIs tok f) := by
  intro t
  induction t with
  | nil => rfl
  | cons a rest ih =>
    simp only [List.map_cons, List.filter_cons]
    by_cases hag : colKeyIs token g a = true
    · rw [if_pos hag]
      have hag2 : a.source_token = token ∧ a.column_field = g := by
        simpa [colKeyIs] using hag
      have hfa : colKeyIs tok f a = false := by
        rw [colKeyIs]
        rw [decide_eq_false]
        intro hc
        exact hne ⟨by rw [← hc.1, hag2.1], by rw [← hc.2, hag2.2]⟩
      have hfa2 : colKeyIs tok f
          ({ a with column_header := h, column_order := ord }) = false := hfa
      rw [hfa, hfa2]
      simp only [Bool.false_eq_true, if_false]
      exact ih
    · rw [if_neg hag]
      by_cases haf : colKeyIs tok f a = true
      · rw [if_pos haf, if_pos haf, ih]
      · rw [if_neg haf, if_neg haf, ih]

theorem upsertColDef_filter_other (token : String) (g h : PyVal) (ord : Nat)
    (t : List ColDef) (tok : String) (f : PyVal)
    (hne : ¬ (tok = token ∧ f = g)) :
    (upsertColDef token g h ord t).filter (colKeyIs tok f) =
      t.filter (colKeyIs tok f) := by
  unfold upsertColDef
  by_cases hc : g ≠ PyVal.vNone ∧ (t.any (colKeyIs token g)) = true
  · rw [if_pos hc]
    exact filter_map_upsert token g h ord tok f hne t
  · rw [if_neg hc, List.filter_append]
    have hnew : (([(⟨token, g, h, ord⟩ : ColDef)]).filter
        (colKeyIs tok f)) = [] := by
      rw [List.filter_eq_nil_iff]
      intro r hr
      rw [List.mem_singleton] at hr
      subst hr
      simp only [colKeyIs, decide_eq_true_eq, not_and]
      intro h1 h2
      exact hne ⟨h1.symm, h2.symm⟩
    rw [hnew, List.append_nil]

theorem filter_map_upsert_self (token : String) (f h : PyVal) (ord : Nat) :
    ∀ t : List ColDef, (t.filter (colKeyIs token f)).length ≤ 1 →
      (t.any (colKeyIs token f)) = true →
      (t.map fun r => if colKeyIs token f r = true then
        { r with column_header := h, column_order := ord } else r).filter
          (colKeyIs token f) =
        [{ source_token := token, column_field := f, column_header := h,
           column_order := ord }] := by
  intro t
  induction t with
  | nil =>
    intro _ hany
    simp [List.any_nil] at hany
  | cons a rest ih =>
    intro hlen hany
    simp only [List.map_cons, List.filter_cons]
    by_cases ha : colKeyIs token f a = true
    · rw [if_pos ha]
      have ha2 : colKeyIs token f
          ({ a with column_header := h, column_order := ord }) = true := ha
      rw [if_pos ha2]
      have hkey : a.source_token = token ∧ a.column_field = f := by
        simpa [colKeyIs] using ha
      have hrestnil : rest.filter (colKeyIs token f) = [] := by
        rw [List.filter_cons, if_pos ha] at hlen
        simp only [List.length_cons] at hlen
        have : (rest.filter (colKeyIs token f)).length = 0 := by omega
        exact List.length_eq_zero.mp this
      have hrest : ∀ r ∈ rest, ¬ colKeyIs token f r = true := by
        rw [List.filter_eq_nil_iff] at hrestnil
        exact hrestnil
      have hmapnil : (rest.map fun r => if colKeyIs token f r = true then
          { r with column_header := h, column_order := ord } else r).filter
            (colKeyIs token f) = [] := by
        rw [List.filter_eq_nil_iff]
        intro r hr
        rw [List.mem_map] at hr
        obtain ⟨r0, hr0, hr0e⟩ := hr
        rw [if_neg (hrest r0 hr0)] at hr0e
        rw [← hr0e]
        exact hrest r0 hr0
      rw [hmapnil]
      have hrec : ({ a with column_header := h, column_order := ord } :
          ColDef) = ⟨token, f, h, ord⟩ := by
        cases a
        rw [ColDef.mk.injEq]
        exact ⟨hkey.1, hkey.2, rfl, rfl⟩
      rw [hrec]
    · rw [if_neg ha]
      have hany2 : (rest.any (colKeyIs token f)) = true := by
        rw [List.any_cons] at hany
        rcases Bool.or_eq_true_iff.mp hany with h1 | h2
        · exact absurd h1 ha
        · exact h2
      have hlen2 : (rest.filter (colKeyIs token f)).length ≤ 1 := by
        rw [List.filter_cons, if_neg ha] at hlen
        exact hlen
      rw [if_neg ha]
      exact ih hlen2 hany2

theorem upsertColDef_filter_self (token : String) (f h : PyVal) (ord : Nat)
    (t : List ColDef) (hf : f ≠ PyVal.vNone)
    (hu : (t.filter (colKeyIs token f)).length ≤ 1) :
    (upsertColDef token f h ord t).filter (colKeyIs token f) =
      [(⟨token, f, h, ord⟩ : ColDef)] := by
  unfold upsertColDef
  by_cases hc : f ≠ PyVal.vNone ∧ (t.any (colKeyIs token f)) = true
  · rw [if_pos hc]
    exact filter_map_upsert_self token f h ord t hu hc.2
  · rw [if_neg hc, List.filter_append]
    have hnone : (t.any (colKeyIs token f)) = false := by
      cases hv : t.any (colKeyIs token f)
      · rfl
      · exact absurd ⟨hf, hv⟩ hc
    have hnil : t.filter (colKeyIs token f) = [] := by
      rw [List.filter_eq_nil_iff]
      intro r hr hcr
      have : t.any (colKeyIs token f) = true :=
        List.any_eq_true.mpr ⟨r, hr, hcr⟩
      rw [hnone] at this
      exact Bool.noConfusion this
    rw [hnil, List.nil_append, List.filter_cons]
    rw [if_pos (by simp [colKeyIs])]
    rfl

theorem upsertColDef_keyUnique (token : String) (g h : PyVal) (ord : Nat)
    (t : List ColDef) (hu : colKeyUnique t) :
    colKeyUnique (upsertColDef token g h ord t) := by
  intro tok f hf
  by_cases hkey : tok = token ∧ f = g
  · obtain ⟨h1, h2⟩ := hkey
    subst h1
    subst h2
    rw [upsertColDef_filter_self tok f h ord t hf (hu tok f hf)]
    simp
  · rw [upsertColDef_filter_other token g h ord t tok f hkey]
    exact hu tok f hf

theorem saveColDefsAux_filter_untouched (token : String) :
    ∀ (cols : List Row) (i : Nat) (t : List ColDef) (tok : String) (f : PyVal),
      (∀ c ∈ cols, ¬ (tok = token ∧ f = rowGet c "field")) →
      (saveColDefsAux token cols i t).filter (colKeyIs tok f) =
        t.filter (colKeyIs tok f) := by
  intro cols
  induction cols with
  | nil => intro i t tok f _; rfl
  | cons c cs ih =>
    intro i t tok f hne
    simp only [saveColDefsAux]
    rw [ih (i + 1) _ tok f (fun c2 hc2 => hne c2 (List.mem_cons_of_mem c hc2))]
    exact upsertColDef_filter_other token (rowGet c "field")
      (rowGet c "header") i t tok f (hne c (List.mem_cons_self c cs))

theorem saveColDefsAux_spec (token : String) :
    ∀ (cols : List Row) (i : Nat) (t : List ColDef),
      (∀ c ∈ cols, rowGet c "field" ≠ PyVal.vNone) →
      (cols.Pairwise fun a b => rowGet a "field" ≠ rowGet b "field") →
      colKeyUnique t →
      colKeyUnique (saveColDefsAux token cols i t) ∧
      ∀ j, ∀ hj : j < cols.length,
        (saveColDefsAux token cols i t).filter
          (colKeyIs token (rowGet (cols.get ⟨j, hj⟩) "field")) =
          [(⟨token, rowGet (cols.get ⟨j, hj⟩) "field",
            rowGet (cols.get ⟨j, hj⟩) "header", i + j⟩ : ColDef)] := by
  intro cols
  induction cols with
  | nil =>
    intro i t _ _ hu
    exact ⟨hu, fun j hj => absurd hj (by simp)⟩
  | cons c cs ih =>
    intro i t hf hpw hu
    rw [List.pairwise_cons] at hpw
    have hu1 : colKeyUnique (upsertColDef token (rowGet c "field")
        (rowGet c "header") i t) :=
      upsertColDef_keyUnique token (rowGet c "field") (rowGet c "header") i t hu
    obtain ⟨hu2, hspec⟩ := ih (i + 1)
      (upsertColDef token (rowGet c "field") (rowGet c "header") i t)
      (fun c2 hc2 => hf c2 (List.mem_cons_of_mem c hc2)) hpw.2 hu1
    refine ⟨hu2, fun j hj => ?_⟩
    cases j with
    | zero =>
      simp only [List.get]
      simp only [saveColDefsAux]
      rw [saveColDefsAux_filter_untouched token cs (i + 1) _ token
        (rowGet c "field")
        (fun c2 hc2 hcc => hpw.1 c2 hc2 hcc.2)]
      rw [upsertColDef_filter_self token (rowGet c "field")
        (rowGet c "header") i t (hf c (List.mem_cons_self c cs))
        (hu token (rowGet c "field") (hf c (List.mem_cons_self c cs)))]
      rw [Nat.add_zero]
    | succ j2 =>
      have hj2 : j2 < cs.length := by
        simp only [List.length_cons] at hj
        omega
      have hg : (c :: cs).get ⟨j2 + 1, hj⟩ = cs.get ⟨j2, hj2⟩ := rfl
      rw [hg]
      simp only [saveColDefsAux]
      have := hspec j2 hj2
      rw [this]
      have harith : i + 1 + j2 = i + (j2 + 1) := by omega
      rw [harith]

theorem saveColumnDefinitions_spec (token : String) (cols : List Row)
    (t : List ColDef) (hf : ∀ c ∈ cols, rowGet c "field" ≠ PyVal.vNone)
    (hpw : cols.Pairwise fun a b => rowGet a "field" ≠ rowGet b "field")
    (hu : colKeyUnique t) :
    colKeyUnique (saveColumnDefinitions token cols t) ∧
    ∀ j, ∀ hj : j < cols.length,
      (saveColumnDefinitions token cols t).filter
        (colKeyIs token (rowGet (cols.get ⟨j, hj⟩) "field")) =
        [(⟨token, rowGet (cols.get ⟨j, hj⟩) "field",
          rowGet (cols.get ⟨j, hj⟩) "header", j⟩ : ColDef)] := by
  obtain ⟨h1, h2⟩ := saveColDefsAux_spec token cols 0 t hf hpw hu
  refine ⟨h1, fun j hj => ?_⟩
  have := h2 j hj
  rw [Nat.zero_add] at this
  exact this

/-! ## Claim theorems -/

/-- C10: for every raw row, column list, source title and token, the
row mapper of the deployed copy (`src/deploy/dispatch_ingester.py`,
lines 284-327) and its helpers `_parse_datetime` and `_safe_float` are
extensionally equal to those of the main copy
(`src/dispatch_ingester.py`, lines 266-274, 320-372): both copies build
the identical Event record (or raise the identical exception). -/
theorem c10_deploy_mapper_equal {F D : Type} (fi : String → Option D)
    (fs : String → Option F) (fiI : Int → F) (tok : String) (row : Row)
    (cols : List Row) (st : PyVal) :
    Deploy.map_row_to_event fi fs fiI tok row cols st =
      map_row_to_event fi fs fiI tok row cols st ∧
    (∀ v, Deploy.parse_datetime fi v = parse_datetime fi v) ∧
    (∀ v, Deploy.safe_float fs fiI v = safe_float fs fiI v) :=
  ⟨rfl, fun _ => rfl, fun _ => rfl⟩

/-- C6 counterexample: the claim says the timestamp parser never raises
for any input value whatsoever, including non-string values.  But
`_parse_datetime` applied to the truthy non-string `5` evaluates
`(5).replace(...)`, raising `AttributeError`, which is not in its
`except (ValueError, TypeError)` clause — the parser raises. -/
theorem c6_parse_datetime_raises :
    parse_datetime (fun _ => (none : Option Nat)) (PyVal.vInt 5) =
      Except.error PyErr.attributeError := rfl

/-- C6 (amended): on every string input, `_parse_datetime` returns the
ISO parse of the Z-normalized string (or null for the empty string) and
`_safe_float` returns the parsed float (or null for the empty string),
and both return null on `None` — never raising on such inputs.  (On
truthy non-string inputs `_parse_datetime` raises `AttributeError`; see
the counterexample.) -/
theorem c6_parsers_total_on_strings {D F : Type} (fi : String → Option D)
    (fs : String → Option F) (fiI : Int → F) (s : String) :
    parse_datetime fi (PyVal.vStr s) =
      Except.ok (if s = "" then none else fi (s.replace "Z" "+00:00")) ∧
    parse_datetime fi PyVal.vNone = Except.ok none ∧
    safe_float fs fiI (PyVal.vStr s) =
      Except.ok (if s = "" then none else fs s) ∧
    safe_float fs fiI PyVal.vNone = Except.ok none :=
  ⟨parse_datetime_str fi s, rfl, safe_float_str fs fiI s,
    safe_float_vNone fs fiI⟩

/-- C7: an execution in which committed Event writes coexist with an
error-status log entry.  `ingest` commits the event batch
(`conn.commit()`, line 480) and only then inserts the success log row
and commits again (line 490).  If the success-log INSERT (statement 6
here: fetch 0, connect 1, metadata 2, SELECT 3, INSERT 4, first commit
5, log insert 6) raises, the event writes are already durable, yet the
`except` branch records a zero-count error row on a fresh connection:
the store ends with one committed event and a single error-status log
entry, contradicting the claimed all-or-nothing coupling of event
writes and success logging. -/
theorem c7_commit_window_violation :
    (runCycle noIso noFloat intId "tok" emptyDB (samplePayload [rowA])
      (some (6, "log write failed")) true 1).1.events.length = 1 ∧
    (runCycle noIso noFloat intId "tok" emptyDB (samplePayload [rowA])
      (some (6, "log write failed")) true 1).1.ingestion_log =
      [mkErrLog "tok" "log write failed"] ∧
    (runCycle noIso noFloat intId "tok" emptyDB (samplePayload [rowA])
      (some (6, "log write failed")) true 1).2.status = "error" := by
  refine ⟨rfl, rfl, rfl⟩

/-- C1: the reconciler's update branch (lines 423-429) touches only the
matched row's `last_seen` (set to the cycle timestamp) and `times_seen`
(incremented by 1); the row's entire frozen payload `ev` — that is
`call_number`, `address`, `call_type`, `units`, `call_created`,
`jurisdiction`, `agency_type`, `longitude`, `latitude`, the
`link_url_1..5` and `column_1..10` slots, `raw_data`, `source_title`
and `source_token` — and its `first_seen` are unchanged, and rows with
a different `event_id` are untouched.  Moreover, at cycle level, any
run of `ingest` (any failure oracle) leaves every pre-existing stored
row's payload `ev` and `first_seen` unchanged. -/
theorem c1_update_frozen_fields :
    (∀ (F D T : Type) (now : T) (eid : PyVal)
      (evs : List (StoredEvent F D T)),
      (updateEvent now eid evs).length = evs.length ∧
      ∀ i, ∀ hi : i < evs.length,
        ∀ hi2 : i < (updateEvent now eid evs).length,
        ((evs.get ⟨i, hi⟩).ev.event_id = eid →
          ((updateEvent now eid evs).get ⟨i, hi2⟩).last_seen = now ∧
          ((updateEvent now eid evs).get ⟨i, hi2⟩).times_seen =
            (evs.get ⟨i, hi⟩).times_seen + 1 ∧
          ((updateEvent now eid evs).get ⟨i, hi2⟩).first_seen =
            (evs.get ⟨i, hi⟩).first_seen ∧
          ((updateEvent now eid evs).get ⟨i, hi2⟩).ev =
            (evs.get ⟨i, hi⟩).ev) ∧
        ((evs.get ⟨i, hi⟩).ev.event_id ≠ eid →
          (updateEvent now eid evs).get ⟨i, hi2⟩ = evs.get ⟨i, hi⟩)) ∧
    (∀ (F D T : Type) (fi : String → Option D) (fs : String → Option F)
      (fiI : Int → F) (token : String) (db : DB F D T) (p : Payload)
      (failAt : Option (Nat × String)) (elog : Bool) (now : T),
      ∀ i, ∀ hi : i < db.events.length,
        ∀ hi2 : i <
          (runCycle fi fs fiI token db p failAt elog now).1.events.length,
        ((runCycle fi fs fiI token db p failAt elog
            now).1.events.get ⟨i, hi2⟩).ev = (db.events.get ⟨i, hi⟩).ev ∧
        ((runCycle fi fs fiI token db p failAt elog
            now).1.events.get ⟨i, hi2⟩).first_seen =
          (db.events.get ⟨i, hi⟩).first_seen) := by
  constructor
  · intro F D T now eid evs
    refine ⟨updateEvent_length now eid evs, fun i hi hi2 => ?_⟩
    have key := updateEvent_get now eid evs i hi hi2
    constructor
    · intro hmatch
      rw [key]
      beta_reduce
      rw [if_pos hmatch]
      exact ⟨rfl, rfl, rfl, rfl⟩
    · intro hne
      rw [key]
      beta_reduce
      rw [if_neg hne]
  · intro F D T fi fs fiI token db p failAt elog now i hi hi2
    rcases runCycle_shape fi fs fiI token db p failAt elog now _ rfl with
      ⟨-, -, -, k1, hpr⟩ | ⟨m, -, -, -, hev⟩
    · obtain ⟨-, hget⟩ := processRows_frame fi fs fiI token p.title p.columns
        failAt now p.rows _ _ _ _ hpr
      exact hget i hi hi2
    · rcases hev with hev | ⟨k1, hpr⟩
      · have h3 := List.get_of_eq hev ⟨i, hi2⟩
        rw [h3]
        exact ⟨rfl, rfl⟩
      · obtain ⟨-, hget⟩ := processRows_frame fi fs fiI token p.title
          p.columns failAt now p.rows _ _ _ _ hpr
        exact hget i hi hi2

/-- C1 witness: the per-row frame property evaluated on a concrete
two-row store with a matching and a non-matching row. -/
theorem c1_witness :
    (((⟨sampleEv (PyVal.vStr "a") rowA, 1, 1, 1⟩ : StoredEvent Nat Nat Nat) ::
        [⟨sampleEv (PyVal.vStr "b") rowB, 1, 1, 1⟩]).get
        ⟨0, by decide⟩).ev.event_id = PyVal.vStr "a" ∧
    ((updateEvent 7 (PyVal.vStr "a")
      ((⟨sampleEv (PyVal.vStr "a") rowA, 1, 1, 1⟩ : StoredEvent Nat Nat Nat) ::
        [⟨sampleEv (PyVal.vStr "b") rowB, 1, 1, 1⟩])).get
        ⟨0, by decide⟩).last_seen = 7 := by
  have h := (c1_update_frozen_fields.1 Nat Nat Nat 7 (PyVal.vStr "a")
    ((⟨sampleEv (PyVal.vStr "a") rowA, 1, 1, 1⟩ : StoredEvent Nat Nat Nat) ::
      [⟨sampleEv (PyVal.vStr "b") rowB, 1, 1, 1⟩])).2 0 (by decide) (by decide)
  exact ⟨rfl, (h.1 (by decide)).1⟩

/-- C2: reconciling a batch of rows with distinct non-empty event ids
against the empty store and then reconciling the identical batch again
yields `times_seen = 2`, `first_seen` = the first cycle's timestamp and
`last_seen` = the second cycle's timestamp for every stored event; the
second pass reports `new_events = 0` and creates no additional stored
rows.  (Rows are string-valued, as the upstream feed's rows are.) -/
theorem c2_double_ingest {F D T : Type} (fi : String → Option D)
    (fs : String → Option F) (fiI : Int → F) (token : String) (p : Payload)
    (t1 t2 : T) (elog1 elog2 : Bool)
    (hstr : ∀ r ∈ p.rows, strRow r = true)
    (htr : ∀ r ∈ p.rows, pyTruthy (rowEventId r) = true)
    (hdist : p.rows.Pairwise fun a b => rowEventId a ≠ rowEventId b) :
    (runCycle fi fs fiI token
      (runCycle fi fs fiI token emptyDB p none elog1 t1).1 p none elog2
        t2).2.new_events = 0 ∧
    (runCycle fi fs fiI token
      (runCycle fi fs fiI token emptyDB p none elog1 t1).1 p none elog2
        t2).1.events.length =
      (runCycle fi fs fiI token emptyDB p none elog1 t1).1.events.length ∧
    ∀ e ∈ (runCycle fi fs fiI token
      (runCycle fi fs fiI token emptyDB p none elog1 t1).1 p none elog2
        t2).1.events,
      e.times_seen = 2 ∧ e.first_seen = t1 ∧ e.last_seen = t2 := by
  have hmap : ∀ r ∈ p.rows, ∃ ev : Event F D,
      map_row_to_event fi fs fiI token r p.columns p.title = Except.ok ev :=
    fun r hr => map_row_ok_of_strRow (hstr r hr)
  have habs : ∀ r ∈ p.rows,
      existsEvent (rowEventId r) (emptyDB (F := F) (D := D) (T := T)).events
        = false := fun r _ => rfl
  obtain ⟨fresh, heq1, hids, hprops⟩ := processRows_all_new fi fs fiI token
    p.title p.columns t1 p.rows hmap htr hdist (3 + p.columns.length)
    emptyDB.events 0 0 habs
  have hrc1 := runCycle_none fi fs fiI token emptyDB p elog1 t1 heq1
  have hev1 : (runCycle fi fs fiI token emptyDB p none elog1 t1).1.events =
      [] ++ fresh := by
    rw [hrc1]
    rfl
  have hP : ∀ e ∈ ([] : List (StoredEvent F D T)), ∀ r ∈ p.rows,
      e.ev.event_id ≠ rowEventId r := by intro e he; cases he
  have heq2 := processRows_all_update fi fs fiI token p.title p.columns t2
    p.rows hmap htr hdist [] fresh (3 + p.columns.length) 0 0 hids hP
  have heq2a : processRows fi fs fiI token p.title p.columns none t2 p.rows
      (3 + p.columns.length)
      (runCycle fi fs fiI token emptyDB p none elog1 t1).1.events 0 0 =
      Except.ok ([] ++ fresh.map (bumpSeen t2),
        3 + p.columns.length + 2 * p.rows.length, 0, 0 + p.rows.length) := by
    rw [hev1]
    exact heq2
  have hrc2 := runCycle_none fi fs fiI token
    (runCycle fi fs fiI token emptyDB p none elog1 t1).1 p elog2 t2 heq2a
  refine ⟨by rw [hrc2], ?_, ?_⟩
  · rw [hrc2, hev1]
    simp
  · intro e he
    rw [hrc2] at he
    simp only [List.nil_append] at he
    rw [List.mem_map] at he
    obtain ⟨e0, he0, he0e⟩ := he
    obtain ⟨hf, hl, ht⟩ := hprops e0 he0
    rw [← he0e]
    refine ⟨?_, ?_, ?_⟩
    · simp [bumpSeen, ht]
    · simp [bumpSeen, hf]
    · simp [bumpSeen]

/-- C2 witness: the double-ingest property evaluated on a concrete
two-row batch with distinct event ids. -/
theorem c2_witness :
    (runCycle noIso noFloat intId "tok"
      (runCycle noIso noFloat intId "tok" emptyDB (samplePayload [rowA, rowB])
        none true 1).1 (samplePayload [rowA, rowB]) none true
        2).2.new_events = 0 ∧
    (runCycle noIso noFloat intId "tok"
      (runCycle noIso noFloat intId "tok" emptyDB (samplePayload [rowA, rowB])
        none true 1).1 (samplePayload [rowA, rowB]) none true
        2).1.events.length =
      (runCycle noIso noFloat intId "tok" emptyDB (samplePayload [rowA, rowB])
        none true 1).1.events.length ∧
    ∀ e ∈ (runCycle noIso noFloat intId "tok"
      (runCycle noIso noFloat intId "tok" emptyDB (samplePayload [rowA, rowB])
        none true 1).1 (samplePayload [rowA, rowB]) none true 2).1.events,
      e.times_seen = 2 ∧ e.first_seen = 1 ∧ e.last_seen = 2 :=
  c2_double_ingest noIso noFloat intId "tok" (samplePayload [rowA, rowB])
    1 2 true true (by decide) (by decide) (by decide)

/-- C3: after any sequence of ingestion cycles starting from the empty
store (any payloads, any statement failures, any error-log outcomes),
no two stored events share an `event_id`; and when the same `event_id`
occurs twice within one batch, the second occurrence finds the row
written by the first (the SELECT reads the transaction's own pending
write) and takes the update branch, so exactly one row is stored, with
`times_seen = 2`, and the batch counts one insert and one update — no
duplicate insert is attempted. -/
theorem c3_event_id_unique :
    (∀ (F D T : Type) (fi : String → Option D) (fs : String → Option F)
      (fiI : Int → F) (token : String) (inputs : List (CycleInput T)),
      idsNodup (runCycles fi fs fiI token inputs emptyDB).events) ∧
    (∀ (F D T : Type) (fi : String → Option D) (fs : String → Option F)
      (fiI : Int → F) (token : String) (st : PyVal) (cols : List Row)
      (now : T) (r1 r2 : Row) (ev1 ev2 : Event F D)
      (S : List (StoredEvent F D T)) (k n u : Nat),
      map_row_to_event fi fs fiI token r1 cols st = Except.ok ev1 →
      map_row_to_event fi fs fiI token r2 cols st = Except.ok ev2 →
      ev2.event_id = ev1.event_id →
      pyTruthy ev1.event_id = true →
      existsEvent ev1.event_id S = false →
      processRows fi fs fiI token st cols none now [r1, r2] k S n u =
        Except.ok (S ++ [⟨ev1, now, now, 2⟩], k + 4, n + 1, u + 1)) := by
  constructor
  · intro F D T fi fs fiI token inputs
    exact runCycles_nodup fi fs fiI token inputs emptyDB
      (by simp [idsNodup, emptyDB])
  · intro F D T fi fs fiI token st cols now r1 r2 ev1 ev2 S k n u
      hm1 hm2 hid htr habs
    have habs2 : ∀ e ∈ S, e.ev.event_id ≠ ev1.event_id :=
      (existsEvent_false_iff _ _).mp habs
    simp only [processRows, hm1, hm2]
    rw [if_neg (by rw [htr]; simp), if_neg (by simp [opFails]),
      if_neg (by simp [opFails]), if_neg (by rw [habs]; simp)]
    have htr2 : ¬ pyTruthy ev2.event_id = false := by
      rw [hid, htr]
      simp
    rw [if_neg htr2, if_neg (by simp [opFails]), if_neg (by simp [opFails])]
    have hex2 : existsEvent ev2.event_id (insertEvent now ev1 S) = true := by
      unfold insertEvent
      rw [existsEvent_append]
      simp only [existsEvent, List.any_cons, List.any_nil]
      rw [hid]
      simp
    rw [if_pos hex2]
    have hupd : updateEvent now ev2.event_id (insertEvent now ev1 S) =
        S ++ [⟨ev1, now, now, 2⟩] := by
      unfold insertEvent
      rw [updateEvent_append, updateEvent_cons,
        updateEvent_of_absent now ev2.event_id
          (fun e he hc => habs2 e he (hc.trans hid)),
        if_pos (show ev1.event_id = ev2.event_id from hid.symm)]
      rfl
    rw [hupd]

/-- C3 witness: the in-batch duplicate case evaluated on a concrete
duplicate pair against a store already holding an unrelated event. -/
theorem c3_witness :
    processRows noIso noFloat intId "tok" (PyVal.vStr "T") [] none 5
      [rowA, rowA] 3 [⟨sampleEv (PyVal.vStr "b") rowB, 1, 1, 1⟩] 0 0 =
      Except.ok ([⟨sampleEv (PyVal.vStr "b") rowB, 1, 1, 1⟩] ++
        [⟨sampleEv (PyVal.vStr "a") rowA, 5, 5, 2⟩], 3 + 4, 0 + 1, 0 + 1) :=
  c3_event_id_unique.2 Nat Nat Nat noIso noFloat intId "tok" (PyVal.vStr "T")
    [] 5 rowA rowA (sampleEv (PyVal.vStr "a") rowA)
    (sampleEv (PyVal.vStr "a") rowA)
    [⟨sampleEv (PyVal.vStr "b") rowB, 1, 1, 1⟩] 3 0 0 rfl rfl rfl
    (by decide) (by decide)

/-- C4 counterexample: the claim says a cycle contributes at most 1 to
`times_seen` regardless of how many rows of its batch carry the
`event_id`.  One cycle whose batch carries the same id twice refutes
this: the first occurrence inserts with `times_seen = 1`, the second
takes the update branch and increments, leaving `times_seen = 2` after
a single cycle in which the id appeared — each batch row contributes 1,
not each cycle.  (`countId` counts the batch rows carrying the id:
here 2, in one cycle.) -/
theorem c4_in_batch_duplicate_double_counts :
    (runCycle noIso noFloat intId "tok" emptyDB
      (samplePayload [rowA, rowA]) none true 1).1.events.map
        (fun e => e.times_seen) = [2] ∧
    countId (PyVal.vStr "a") (samplePayload [rowA, rowA]).rows = 2 := by
  refine ⟨rfl, rfl⟩

/-- C4 (amended): after any sequence of completed ingestion cycles
starting from the empty store (string-valued rows, no statement
failures), every stored event's `times_seen` equals the total number of
fetched batch rows across all cycles that carried its `event_id` (with
a truthy id) — each such row contributes exactly 1, so a cycle whose
batch holds the id k times contributes k, and a cycle whose batch
lacks it contributes 0. -/
theorem c4_times_seen_counts_rows {F D T : Type} (fi : String → Option D)
    (fs : String → Option F) (fiI : Int → F) (token : String)
    (inputs : List (CycleInput T))
    (hfail : ∀ c ∈ inputs, c.failAt = none)
    (hstr : ∀ c ∈ inputs, ∀ r ∈ c.payload.rows, strRow r = true) :
    ∀ e ∈ (runCycles fi fs fiI token inputs emptyDB).events,
      e.times_seen =
        (inputs.map fun c => countId e.ev.event_id c.payload.rows).sum := by
  intro e he
  obtain ⟨hnd, htimes⟩ := runCycles_times fi fs fiI token inputs emptyDB
    hfail hstr (by simp [idsNodup, emptyDB])
  have h1 := timesOf_eq_of_nodup hnd he
  have h2 := htimes e.ev.event_id
  rw [h1] at h2
  rw [h2]
  simp [timesOf, emptyDB]

/-- C4 witness: the amended count evaluated on two concrete cycles —
one whose batch carries the id twice, one in which it is absent — at
the stored event for id `"a"` (`times_seen = 2 = 2 + 0`). -/
theorem c4_witness :
    (⟨sampleEv (PyVal.vStr "a") rowA, 1, 1, 2⟩ :
        StoredEvent Nat Nat Nat).times_seen =
      (([⟨samplePayload [rowA, rowA], none, true, 1⟩,
         ⟨samplePayload [rowB], none, true, 2⟩] :
          List (CycleInput Nat)).map
        fun c => countId (⟨sampleEv (PyVal.vStr "a") rowA, 1, 1, 2⟩ :
          StoredEvent Nat Nat Nat).ev.event_id c.payload.rows).sum :=
  c4_times_seen_counts_rows noIso noFloat intId "tok"
    [⟨samplePayload [rowA, rowA], none, true, 1⟩,
     ⟨samplePayload [rowB], none, true, 2⟩]
    (by decide) (by decide)
    ⟨sampleEv (PyVal.vStr "a") rowA, 1, 1, 2⟩ (by decide)

/-- C5: in a cycle over string-valued rows, `events_fetched` is the raw
row count taken before mapping and filtering; a row whose `EventID` is
missing or empty (equivalently, whose extracted id is falsy) is skipped
— it is never persisted (every stored event either pre-existed or has a
truthy id) and counts as neither new nor updated, so
`new_events + updated_events` equals the number of rows with a
non-empty `EventID`. -/
theorem c5_empty_event_id_skipped {F D T : Type} (fi : String → Option D)
    (fs : String → Option F) (fiI : Int → F) (token : String)
    (db : DB F D T) (p : Payload) (elog : Bool) (now : T)
    (hstr : ∀ r ∈ p.rows, strRow r = true) :
    (runCycle fi fs fiI token db p none elog now).2.events_fetched =
      p.rows.length ∧
    (runCycle fi fs fiI token db p none elog now).2.new_events +
      (runCycle fi fs fiI token db p none elog now).2.updated_events =
      p.rows.countP (fun r => pyTruthy (rowEventId r)) ∧
    (∀ e ∈ (runCycle fi fs fiI token db p none elog now).1.events,
      e ∈ db.events ∨ pyTruthy e.ev.event_id = true) ∧
    (∀ r ∈ p.rows,
      (pyTruthy (rowEventId r) = false ↔ rowEventId r = PyVal.vStr "")) := by
  obtain ⟨evs', k', n', u', heq, hcnt, hmem⟩ := processRows_counts fi fs fiI
    token p.title p.columns now p.rows hstr (3 + p.columns.length)
    db.events 0 0
  have hrc := runCycle_none fi fs fiI token db p elog now heq
  refine ⟨by rw [hrc], ?_, ?_, ?_⟩
  · rw [hrc]
    simpa using hcnt
  · intro e he
    rw [hrc] at he
    exact hmem e he
  · intro r hr
    obtain ⟨s, hs⟩ := rowGetD_strRow (hstr r hr) "EventID" ""
    rw [rowEventId, hs]
    constructor
    · intro hfalse
      simp only [pyTruthy, Bool.not_eq_true'] at hfalse
      rw [PyVal.vStr.injEq]
      simpa using hfalse
    · intro hempty
      rw [PyVal.vStr.injEq] at hempty
      simp [pyTruthy, hempty]

/-- C5 witness: a concrete three-row batch — a valid id, a row with no
`EventID` key, and a row with an empty `EventID` — fetched count 3,
new + updated = 1, and only the truthy-id event stored. -/
theorem c5_witness :
    (runCycle noIso noFloat intId "tok" emptyDB
      (samplePayload [rowA, [], [("EventID", PyVal.vStr "")]]) none true
        1).2.events_fetched =
      (samplePayload [rowA, [], [("EventID", PyVal.vStr "")]]).rows.length ∧
    (runCycle noIso noFloat intId "tok" emptyDB
      (samplePayload [rowA, [], [("EventID", PyVal.vStr "")]]) none true
        1).2.new_events +
      (runCycle noIso noFloat intId "tok" emptyDB
        (samplePayload [rowA, [], [("EventID", PyVal.vStr "")]]) none true
          1).2.updated_events =
      (samplePayload [rowA, [], [("EventID", PyVal.vStr "")]]).rows.countP
        (fun r => pyTruthy (rowEventId r)) ∧
    (∀ e ∈ (runCycle noIso noFloat intId "tok" emptyDB
        (samplePayload [rowA, [], [("EventID", PyVal.vStr "")]]) none true
          1).1.events,
      e ∈ (emptyDB (F := Nat) (D := Nat) (T := Nat)).events ∨
        pyTruthy e.ev.event_id = true) ∧
    (∀ r ∈ (samplePayload [rowA, [], [("EventID", PyVal.vStr "")]]).rows,
      (pyTruthy (rowEventId r) = false ↔ rowEventId r = PyVal.vStr "")) :=
  c5_empty_event_id_skipped noIso noFloat intId "tok" emptyDB
    (samplePayload [rowA, [], [("EventID", PyVal.vStr "")]]) true 1
    (by decide)

/-- C8 counterexample: the claim says a failed cycle's returned result
has zero new/updated counts.  But the `except` branch (lines 496-499)
only flips `status` and sets `error_message`; it does not reset the
counters `result` accumulated before the failure.  A two-row batch
whose second SELECT (statement 5: fetch 0, connect 1, metadata 2,
SELECT 3, INSERT 4, SELECT 5) raises returns `status = 'error'` with
`new_events = 1`, not 0. -/
theorem c8_error_result_keeps_counts :
    (runCycle noIso noFloat intId "tok" emptyDB (samplePayload [rowA, rowB])
      (some (5, "db failure")) true 1).2.status = "error" ∧
    (runCycle noIso noFloat intId "tok" emptyDB (samplePayload [rowA, rowB])
      (some (5, "db failure")) true 1).2.new_events = 1 := by
  refine ⟨rfl, rfl⟩

/-- C8 (amended): whenever a cycle fails (status `'error'` — the model
of `ingest` is a total function, so it always returns normally), the
returned result carries the captured failure text, and exactly one
error-status log row with zero counts and that text is attempted at the
end of the cycle: it is appended when the best-effort write succeeds
and the log is left unchanged when it fails (swallowed).  The returned
new/updated counters keep whatever the loop accumulated before the
failure (zero only when the failure preceded all row processing). -/
theorem c8_error_cycle_logging {F D T : Type} (fi : String → Option D)
    (fs : String → Option F) (fiI : Int → F) (token : String)
    (db : DB F D T) (p : Payload) (failAt : Option (Nat × String))
    (elog : Bool) (now : T)
    (herr : (runCycle fi fs fiI token db p failAt elog now).2.status =
      "error") :
    ∃ m, (runCycle fi fs fiI token db p failAt elog now).2.error_message =
        some m ∧
      (runCycle fi fs fiI token db p failAt elog now).1.ingestion_log =
        db.ingestion_log ++ (if elog then [mkErrLog token m] else []) ∧
      mkErrLog token m = ⟨0, 0, 0, "error", some m, token⟩ := by
  rcases runCycle_shape fi fs fiI token db p failAt elog now _ rfl with
    ⟨hs, -, -, -⟩ | ⟨m, -, hmsg, hlog, -⟩
  · rw [hs] at herr
    exact absurd herr (by decide)
  · exact ⟨m, hmsg, hlog, rfl⟩

/-- C8 witness: the amended logging property evaluated on a concrete
cycle whose fetch fails. -/
theorem c8_witness :
    ∃ m, (runCycle noIso noFloat intId "tok" emptyDB (samplePayload [rowA])
        (some (0, "fetch failed")) true 1).2.error_message = some m ∧
      (runCycle noIso noFloat intId "tok" emptyDB (samplePayload [rowA])
        (some (0, "fetch failed")) true 1).1.ingestion_log =
        (emptyDB (F := Nat) (D := Nat) (T := Nat)).ingestion_log ++
          (if true then [mkErrLog "tok" m] else []) ∧
      mkErrLog "tok" m = ⟨0, 0, 0, "error", some m, "tok"⟩ :=
  c8_error_cycle_logging noIso noFloat intId "tok" emptyDB
    (samplePayload [rowA]) (some (0, "fetch failed")) true 1 (by decide)

/-- C9 counterexample: the claim covers every column descriptor, but a
descriptor without a `field` key stores a NULL `column_field`, and
PostgreSQL's `ON CONFLICT (source_token, column_field)` target never
matches a NULL key (NULLs are distinct under the UNIQUE constraint).
Re-fetching such a feed therefore inserts a fresh row each cycle: after
two saves of the same single field-less descriptor the table holds two
rows with the same `(token, NULL)` pair. -/
theorem c9_null_field_duplicates :
    (saveColumnDefinitions "tok" [[]]
      (saveColumnDefinitions "tok" [[]] [])).length = 2 ∧
    ∀ r ∈ saveColumnDefinitions "tok" [[]]
      (saveColumnDefinitions "tok" [[]] []),
      r.source_token = "tok" ∧ r.column_field = PyVal.vNone := by
  refine ⟨rfl, by decide⟩

/-- C9 (amended): for descriptors whose `field` key is present
(non-null) and pairwise distinct, `_save_column_definitions` stores,
for the descriptor at ordinal position `j`, exactly one row under the
key `(token, field_j)` carrying that descriptor's header and
`column_order = j`, replacing any existing row with that key; and it
preserves key-uniqueness, so re-fetching a feed whose column list
changed order updates `column_order` of the existing `(token, field)`
rows without ever creating a second row for the same (non-null) pair. -/
theorem c9_column_definitions_upsert (token : String) (cols : List Row)
    (t : List ColDef)
    (hf : ∀ c ∈ cols, rowGet c "field" ≠ PyVal.vNone)
    (hpw : cols.Pairwise fun a b => rowGet a "field" ≠ rowGet b "field")
    (hu : colKeyUnique t) :
    colKeyUnique (saveColumnDefinitions token cols t) ∧
    ∀ j, ∀ hj : j < cols.length,
      (saveColumnDefinitions token cols t).filter
        (colKeyIs token (rowGet (cols.get ⟨j, hj⟩) "field")) =
        [(⟨token, rowGet (cols.get ⟨j, hj⟩) "field",
          rowGet (cols.get ⟨j, hj⟩) "header", j⟩ : ColDef)] :=
  saveColumnDefinitions_spec token cols t hf hpw hu

/-- C9 witness: the upsert evaluated on two concrete descriptors, run
twice with the column order swapped — the keys stay unique and the
stored `column_order` follows the latest fetch. -/
theorem c9_witness :
    colKeyUnique (saveColumnDefinitions "tok"
      [[("field", PyVal.vStr "f2"), ("header", PyVal.vStr "H2")],
       [("field", PyVal.vStr "f1"), ("header", PyVal.vStr "H1")]]
      (saveColumnDefinitions "tok"
        [[("field", PyVal.vStr "f1"), ("header", PyVal.vStr "H1")],
         [("field", PyVal.vStr "f2"), ("header", PyVal.vStr "H2")]] [])) ∧
    ∀ j, ∀ hj : j < ([[("field", PyVal.vStr "f2"),
        ("header", PyVal.vStr "H2")],
       [("field", PyVal.vStr "f1"), ("header", PyVal.vStr "H1")]] :
        List Row).length,
      (saveColumnDefinitions "tok"
        [[("field", PyVal.vStr "f2"), ("header", PyVal.vStr "H2")],
         [("field", PyVal.vStr "f1"), ("header", PyVal.vStr "H1")]]
        (saveColumnDefinitions "tok"
          [[("field", PyVal.vStr "f1"), ("header", PyVal.vStr "H1")],
           [("field", PyVal.vStr "f2"), ("header", PyVal.vStr "H2")]]
          [])).filter
        (colKeyIs "tok" (rowGet (([[("field", PyVal.vStr "f2"),
            ("header", PyVal.vStr "H2")],
          [("field", PyVal.vStr "f1"),
            ("header", PyVal.vStr "H1")]] : List Row).get ⟨j, hj⟩)
              "field")) =
        [(⟨"tok", rowGet (([[("field", PyVal.vStr "f2"),
            ("header", PyVal.vStr "H2")],
          [("field", PyVal.vStr "f1"),
            ("header", PyVal.vStr "H1")]] : List Row).get ⟨j, hj⟩) "field",
          rowGet (([[("field", PyVal.vStr "f2"),
            ("header", PyVal.vStr "H2")],
          [("field", PyVal.vStr "f1"),
            ("header", PyVal.vStr "H1")]] : List Row).get ⟨j, hj⟩) "header",
          j⟩ : ColDef)] :=
  c9_column_definitions_upsert "tok"
    [[("field", PyVal.vStr "f2"), ("header", PyVal.vStr "H2")],
     [("field", PyVal.vStr "f1"), ("header", PyVal.vStr "H1")]]
    (saveColumnDefinitions "tok"
      [[("field", PyVal.vStr "f1"), ("header", PyVal.vStr "H1")],
       [("field", PyVal.vStr "f2"), ("header", PyVal.vStr "H2")]] [])
    (by decide) (by decide)
    (by
      intro tok f hfne
      have h1 := (saveColumnDefinitions_spec "tok"
        [[("field", PyVal.vStr "f1"), ("header", PyVal.vStr "H1")],
         [("field", PyVal.vStr "f2"), ("header", PyVal.vStr "H2")]] []
        (by decide) (by decide)
        (fun _ _ _ => by simp)).1
      exact h1 tok f hfne)
